import Mathlib

/-!
Verification of the AADG genome-assembly graph engine.

The Python sources are embedded shallowly:
* a Python `dict` is an insertion-ordered association list with unique keys
  (`Dict`); `d[k] = v` replaces in place or appends, `del d[k]` removes the
  entry, iteration follows list order;
* a Python `set` of node strings is a deduplicated list (Python's set
  iteration order is unspecified; every result proved below is insensitive
  to that order, and the list fixes one concrete order);
* `collections.defaultdict(int)` reads yield 0 for missing keys and
  `d[k] += c` inserts the key when absent (`degIncr`);
* Python `int` is `Int` (degree counters can be driven below zero through
  the defaultdict, so `Nat` would be unfaithful);
* float thresholds (`0.1`, `0.6`, `total / 2`) are modelled as exact
  rationals; for the integer inputs the code meets, the binary-float
  comparison and the rational comparison agree.
-/

namespace AADG

/-- Python `dict` with `String` keys: insertion-ordered association list. -/
abbrev Dict (β : Type) := List (String × β)

/-- `d.get(k)` / `k in d` lookup: first entry with the key. -/
def dictGet? {β : Type} : Dict β → String → Option β
  | [], _ => none
  | (a, b) :: t, k => if a = k then some b else dictGet? t k

/-- `d.get(k, v0)`. -/
def dictGetD {β : Type} (d : Dict β) (k : String) (v0 : β) : β :=
  (dictGet? d k).getD v0

/-- `k in d`. -/
def dictMem {β : Type} (d : Dict β) (k : String) : Prop :=
  (dictGet? d k).isSome = true

instance {β : Type} (d : Dict β) (k : String) : Decidable (dictMem d k) := by
  unfold dictMem; infer_instance

/-- `d[k] = v`: replace in place if present, append otherwise. -/
def dictInsert {β : Type} : Dict β → String → β → Dict β
  | [], k, v => [(k, v)]
  | (a, b) :: t, k, v => if a = k then (a, v) :: t else (a, b) :: dictInsert t k v

/-- `del d[k]` (no-op when absent, matching `pop(k, None)`). -/
def dictErase {β : Type} (d : Dict β) (k : String) : Dict β :=
  d.filter (fun p => p.1 ≠ k)

/-- `list(d.keys())`. -/
def dictKeys {β : Type} (d : Dict β) : List String :=
  d.map (·.1)

/-- `defaultdict(int)` update `d[k] += c` (reads 0 for a missing key). -/
def degIncr (d : Dict Int) (k : String) (c : Int) : Dict Int :=
  dictInsert d k (dictGetD d k 0 + c)

/-- `d.setdefault(k, d[k])` on a `defaultdict(int)`: ensure the key exists. -/
def ensureKey (d : Dict Int) (k : String) : Dict Int :=
  if dictMem d k then d else dictInsert d k 0

/-- Python `set.add` on the node list (append if new). -/
def nodesAdd (l : List String) (x : String) : List String :=
  if x ∈ l then l else l ++ [x]

/-- The graph store of `dbg.py` (`class DeBruijnGraph`). -/
structure DeBruijnGraph where
  node_len : Option Nat
  out_edges : Dict (Dict Int)
  in_degree : Dict Int
  out_degree : Dict Int
  nodes : List String
deriving DecidableEq

/-- `DeBruijnGraph(k=k)`: `node_len = k - 1 if k else None`, empty stores. -/
def emptyGraph (k : Nat) : DeBruijnGraph :=
  { node_len := if k = 0 then none else some (k - 1)
    out_edges := [], in_degree := [], out_degree := [], nodes := [] }

/-- `graph.in_degree.get(n, 0)`. -/
def inDegOf (g : DeBruijnGraph) (n : String) : Int :=
  dictGetD g.in_degree n 0

/-- `graph.out_degree.get(n, 0)`. -/
def outDegOf (g : DeBruijnGraph) (n : String) : Int :=
  dictGetD g.out_degree n 0

/-- The edge `u -> v` is recorded (`u in out_edges and v in out_edges[u]`). -/
def edgeMem (g : DeBruijnGraph) (u v : String) : Prop :=
  dictMem (dictGetD g.out_edges u []) v

instance (g : DeBruijnGraph) (u v : String) : Decidable (edgeMem g u v) := by
  unfold edgeMem; infer_instance

/-- `DeBruijnGraph.add_edge` (dbg.py).  Accessing `self.out_edges[u]` on the
defaultdict materialises `u`'s inner dict; the trailing `setdefault` calls
ensure `u` is a key of `in_degree` and `v` a key of `out_degree`. -/
def add_edge (g : DeBruijnGraph) (u v : String) (w : Int) : DeBruijnGraph :=
  let ns := nodesAdd (nodesAdd g.nodes u) v
  let inner := dictGetD g.out_edges u []
  if dictMem inner v then
    { g with
      nodes := ns
      out_edges := dictInsert g.out_edges u (dictInsert inner v (dictGetD inner v 0 + w))
      in_degree := ensureKey g.in_degree u
      out_degree := ensureKey g.out_degree v }
  else
    { g with
      nodes := ns
      out_edges := dictInsert g.out_edges u (dictInsert inner v w)
      in_degree := ensureKey (degIncr g.in_degree v 1) u
      out_degree := ensureKey (degIncr g.out_degree u 1) v }

/-- `cleaning.get_successors`. -/
def get_successors (g : DeBruijnGraph) (n : String) : List String :=
  dictKeys (dictGetD g.out_edges n [])

/-- `cleaning.get_predecessors`: sources whose target dict contains `n`,
in `out_edges` iteration order. -/
def get_predecessors (g : DeBruijnGraph) (n : String) : List String :=
  (g.out_edges.filter (fun p => dictMem p.2 n)).map (·.1)

/-- `cleaning.get_edge_weight` (0 when the edge is absent). -/
def get_edge_weight (g : DeBruijnGraph) (u v : String) : Int :=
  dictGetD (dictGetD g.out_edges u []) v 0

/-- `cleaning.node_exists`. -/
def node_exists (g : DeBruijnGraph) (n : String) : Prop :=
  n ∈ g.nodes

instance (g : DeBruijnGraph) (n : String) : Decidable (node_exists g n) := by
  unfold node_exists; infer_instance

/-- `cleaning.remove_edge`: delete the edge if present, decrement both degree
counters, and drop `u`'s outgoing dict if it became empty.  No other
bookkeeping happens (in particular no node eviction). -/
def remove_edge (g : DeBruijnGraph) (u v : String) : DeBruijnGraph :=
  match dictGet? g.out_edges u with
  | none => g
  | some inner =>
    if dictMem inner v then
      let inner' := dictErase inner v
      let oe := dictInsert g.out_edges u inner'
      { g with
        out_edges := if inner' = [] then dictErase oe u else oe
        out_degree := degIncr g.out_degree u (-1)
        in_degree := degIncr g.in_degree v (-1) }
    else g

/-- The second loop of `cleaning.remove_node`: walk the (snapshotted) entries
of `out_edges`, delete `n` from each target dict that contains it,
decrementing that source's out-degree, and drop entries whose target dict
became empty.  Each Python iteration touches only the entry being visited,
so the in-place loop is this structural recursion. -/
def removeInEdges (n : String) :
    List (String × Dict Int) → Dict Int → List (String × Dict Int) × Dict Int
  | [], od => ([], od)
  | (u, inner) :: rest, od =>
    if dictMem inner n then
      let inner' := dictErase inner n
      let r := removeInEdges n rest (degIncr od u (-1))
      (if inner' = [] then r.1 else (u, inner') :: r.1, r.2)
    else
      let r := removeInEdges n rest od
      ((u, inner) :: r.1, r.2)

/-- `cleaning.remove_node`: drop `n`'s outgoing edges (decrementing each
target's in-degree), drop all incoming edges, then evict `n` from both
degree maps and the node set. -/
def remove_node (g : DeBruijnGraph) (n : String) : DeBruijnGraph :=
  let g1 :=
    match dictGet? g.out_edges n with
    | none => g
    | some inner =>
      { g with
        in_degree := (dictKeys inner).foldl (fun d v => degIncr d v (-1)) g.in_degree
        out_edges := dictErase g.out_edges n }
  let r := removeInEdges n g1.out_edges g1.out_degree
  { g1 with
    out_edges := r.1
    out_degree := dictErase r.2 n
    in_degree := dictErase g1.in_degree n
    nodes := g1.nodes.filter (fun x => x ≠ n) }

/-- `cleaning.remove_nodes`: remove a batch of nodes one by one. -/
def remove_nodes (g : DeBruijnGraph) (l : List String) : DeBruijnGraph :=
  l.foldl remove_node g

/-- The error taxonomy of `build_graph_from_kmers` (spec names for the two
`ValueError`s: empty mapping, retained k-mer of the wrong length). -/
inductive BuildError where
  | EmptyInput
  | InvalidKmerLength
deriving DecidableEq

/-- Loop body of `dbg.build_graph_from_kmers`: skip k-mers below the count
threshold, fail on a retained k-mer whose length differs from `k`, and
otherwise add the prefix -> suffix edge weighted by the count. -/
def buildGo (k : Nat) (min_kmer_count : Int) :
    List (String × Int) → DeBruijnGraph → Except BuildError DeBruijnGraph
  | [], g => .ok g
  | (kmer, count) :: rest, g =>
    if count < min_kmer_count then buildGo k min_kmer_count rest g
    else if kmer.length ≠ k then .error .InvalidKmerLength
    else buildGo k min_kmer_count rest (add_edge g (kmer.dropRight 1) (kmer.drop 1) count)

/-- `dbg.build_graph_from_kmers`. -/
def build_graph_from_kmers (kmer_counts : List (String × Int)) (k : Nat)
    (min_kmer_count : Int) : Except BuildError DeBruijnGraph :=
  if kmer_counts = [] then .error .EmptyInput
  else buildGo k min_kmer_count kmer_counts (emptyGraph k)

/-- `cleaning.trace_tip_backward`, as a recursion on the append budget: the
Python loop runs while `len(path) <= max_len`, appending the unique
predecessor each round, succeeding when it reaches a branch
(`out_degree > 1`) and failing (`None`) on a non-unique predecessor or an
exhausted budget.  `traceBackGo g b cur` is the path suffix from `cur`. -/
def traceBackGo (g : DeBruijnGraph) : Nat → String → Option (List String)
  | 0, _ => none
  | b + 1, current =>
    match get_predecessors g current with
    | [p] =>
      if 1 < outDegOf g p then some [current, p]
      else
        match traceBackGo g b p with
        | some rest => some (current :: rest)
        | none => none
    | _ => none

/-- `cleaning.trace_tip_backward`. -/
def trace_tip_backward (g : DeBruijnGraph) (start : String) (max_len : Nat) :
    Option (List String) :=
  traceBackGo g max_len start

/-- Forward analogue (`cleaning.trace_tip_forward`): follow the unique
successor until a merge point (`in_degree > 1`). -/
def traceFwdGo (g : DeBruijnGraph) : Nat → String → Option (List String)
  | 0, _ => none
  | b + 1, current =>
    match get_successors g current with
    | [s] =>
      if 1 < inDegOf g s then some [current, s]
      else
        match traceFwdGo g b s with
        | some rest => some (current :: rest)
        | none => none
    | _ => none

/-- `cleaning.trace_tip_forward`. -/
def trace_tip_forward (g : DeBruijnGraph) (start : String) (max_len : Nat) :
    Option (List String) :=
  traceFwdGo g max_len start

/-- `cleaning.calculate_path_coverage`: sum of consecutive edge weights. -/
def calculate_path_coverage (g : DeBruijnGraph) : List String → Int
  | a :: b :: rest => get_edge_weight g a b + calculate_path_coverage g (b :: rest)
  | _ => 0

/-- `cleaning.should_remove_tip`.  The float ratio test
`tip_coverage / alt_coverage < min_coverage_ratio` is taken over `ℚ`
(`Rat.divInt` is that quotient exactly; the branch guarantees
`alt_coverage > 0`). -/
def should_remove_tip (g : DeBruijnGraph) (path : List String) (rmin : ℚ) : Prop :=
  if path.length < 2 then True
  else
    let tipCov := calculate_path_coverage g path
    let branch := path.getLastD ""
    let tipNb := path.dropLast.getLastD ""
    let altS := (get_successors g branch).foldl
      (fun a t => if t ≠ tipNb then max a (get_edge_weight g branch t) else a) 0
    let alt := (get_predecessors g branch).foldl
      (fun a p => if p ≠ tipNb then max a (get_edge_weight g p branch) else a) altS
    if 0 < alt then Rat.divInt tipCov alt < rmin else True

instance (g : DeBruijnGraph) (path : List String) (rmin : ℚ) :
    Decidable (should_remove_tip g path rmin) := by
  unfold should_remove_tip; infer_instance

/-- One scan of `cleaning.remove_tips` over the node snapshot, accumulating
`nodes_to_remove` (a set, kept as a deduplicated list): a sink
(`out = 0 < in`) is traced backward, a source (`in = 0 < out`) forward, and
a qualifying tip contributes its path minus the anchor. -/
def tipScanGo (g : DeBruijnGraph) (tip_max_len : Nat) (rmin : ℚ) :
    List String → List String → List String
  | [], acc => acc
  | n :: rest, acc =>
    if n ∈ acc then tipScanGo g tip_max_len rmin rest acc
    else if ¬ node_exists g n then tipScanGo g tip_max_len rmin rest acc
    else
      let ind := inDegOf g n
      let outd := outDegOf g n
      let path : Option (List String) :=
        if outd = 0 ∧ 0 < ind then trace_tip_backward g n tip_max_len
        else if ind = 0 ∧ 0 < outd then trace_tip_forward g n tip_max_len
        else none
      match path with
      | some p =>
        if should_remove_tip g p rmin then
          tipScanGo g tip_max_len rmin rest (p.dropLast.foldl nodesAdd acc)
        else tipScanGo g tip_max_len rmin rest acc
      | none => tipScanGo g tip_max_len rmin rest acc

/-- The `nodes_to_remove` collected by one pass of `cleaning.remove_tips`. -/
def tipScan (g : DeBruijnGraph) (tip_max_len : Nat) (rmin : ℚ) : List String :=
  tipScanGo g tip_max_len rmin g.nodes []

/-- The iteration loop of `cleaning.remove_tips`: up to `max_iterations`
passes, stopping early when a scan removes nothing. -/
def removeTipsLoop (tip_max_len : Nat) (rmin : ℚ) :
    Nat → DeBruijnGraph → DeBruijnGraph
  | 0, g => g
  | it + 1, g =>
    let ntr := tipScan g tip_max_len rmin
    if ntr = [] then g
    else removeTipsLoop tip_max_len rmin it (remove_nodes g ntr)

/-- `cleaning.remove_tips`. -/
def remove_tips (g : DeBruijnGraph) (tip_max_len : Nat) (rmin : ℚ)
    (max_iterations : Nat) : DeBruijnGraph :=
  removeTipsLoop tip_max_len rmin max_iterations g

/-- `cleaning.walk_simple_path`'s loop: step while the current node has
`out = 1` and `in = 1`, following the first successor, accumulating edge
weight; the returned list is the visited path (`current` is its last
element). -/
def walkSimple (g : DeBruijnGraph) : Nat → String → List String × Int
  | 0, current => ([current], 0)
  | f + 1, current =>
    if outDegOf g current ≠ 1 ∨ inDegOf g current ≠ 1 then ([current], 0)
    else
      match get_successors g current with
      | [] => ([current], 0)
      | nxt :: _ =>
        let r := walkSimple g f nxt
        (current :: r.1, get_edge_weight g current nxt + r.2)

/-- `cleaning.walk_simple_path`: `(end_node, path, total_weight)`. -/
def walk_simple_path (g : DeBruijnGraph) (start : String) (max_len : Nat) :
    String × List String × Int :=
  let r := walkSimple g max_len start
  (r.1.getLastD start, r.1, r.2)

/-- One node removal of `pop_bubbles_simple`'s cleanup loop: remove the
node if it still exists. -/
def popNodeRemove (h : DeBruijnGraph) (x : String) : DeBruijnGraph :=
  if node_exists h x then remove_node h x else h

/-- The body of `cleaning.pop_bubbles_simple` for one candidate branch node:
on exactly two successors whose simple-path walks merge at the same end
node, remove every node of the weaker path except the last (`weight1 <
weight2` keeps path2's nodes, so an exact tie removes the second-listed
path), via `remove_node` guarded by `node_exists`. -/
def popBubbleAt (max_bubble_len : Nat) (g : DeBruijnGraph) (u : String) :
    DeBruijnGraph :=
  if ¬ node_exists g u then g
  else
    match get_successors g u with
    | [v1, v2] =>
      let r1 := walkSimple g max_bubble_len v1
      let r2 := walkSimple g max_bubble_len v2
      if r1.1.getLastD v1 ≠ r2.1.getLastD v2 then g
      else
        let weaker := if r1.2 < r2.2 then r1.1 else r2.1
        weaker.dropLast.foldl popNodeRemove g
    | _ => g

/-- `cleaning.pop_bubbles_simple`: fold the per-node step over the snapshot
of `out_edges` keys. -/
def pop_bubbles_simple (g : DeBruijnGraph) (max_bubble_len : Nat) : DeBruijnGraph :=
  (dictKeys g.out_edges).foldl (popBubbleAt max_bubble_len) g

/-- `velvet_optimizations.get_all_edge_weights`: every edge weight, in
`out_edges` iteration order. -/
def get_all_edge_weights (g : DeBruijnGraph) : List Int :=
  (g.out_edges.map (fun p => p.2.map (·.2))).flatten

/-- `Counter(weights)[c]`: multiplicity of `c` (0 when absent). -/
def histCount (ws : List Int) (c : Int) : Nat :=
  ws.count c

/-- Distinct values of a weight list, first occurrences kept, with a seen
accumulator (= `Counter(...).keys()` as a set; only the value set matters,
the list is sorted before use). -/
def distinctAux : List Int → List Int → List Int
  | [], _ => []
  | a :: t, seen =>
    if a ∈ seen then distinctAux t seen else a :: distinctAux t (a :: seen)

/-- Distinct values of a weight list. -/
def distinctVals (l : List Int) : List Int :=
  distinctAux l []

/-- Insert into an ascending list (`sorted(...)` via insertion sort). -/
def insertAsc (x : Int) : List Int → List Int
  | [] => [x]
  | y :: t => if x ≤ y then x :: y :: t else y :: insertAsc x t

/-- `sorted(l)` ascending. -/
def sortAsc (l : List Int) : List Int :=
  l.foldr insertAsc []

/-- Candidate weights of the valley scan: distinct weights in
`1..max_search`, ascending. -/
def valleyCandidates (ws : List Int) (max_search : Int) : List Int :=
  sortAsc ((distinctVals ws).filter (fun c => 1 ≤ c ∧ c ≤ max_search))

/-- The `for i in range(1, len(counts)-1)` scan: slide a window of three
consecutive candidates, returning the first middle value whose histogram
count is strictly below both neighbours'. -/
def valleyScan (ws : List Int) : List Int → Option Int
  | a :: b :: c :: t =>
    if histCount ws b < histCount ws a ∧ histCount ws b < histCount ws c then some b
    else valleyScan ws (b :: c :: t)
  | _ => none

/-- The singleton-fraction fallback of
`velvet_optimizations.estimate_coverage_cutoff_valley` (ratios over `ℚ`;
`total` is `sum(histogram.values()) = len(weights)`). -/
def fallbackCutoff (g : DeBruijnGraph) : Int :=
  let ws := get_all_edge_weights g
  let ratio : ℚ :=
    if 0 < ws.length then Rat.divInt (histCount ws 1 : Int) (ws.length : Int) else 0
  if mkRat 6 10 < ratio then 4
  else if mkRat 4 10 < ratio then 3
  else 2

/-- `velvet_optimizations.estimate_coverage_cutoff_valley`. -/
def estimate_coverage_cutoff_valley (g : DeBruijnGraph) (max_search : Int) : Int :=
  let ws := get_all_edge_weights g
  if ws = [] then 2
  else
    let counts := valleyCandidates ws max_search
    if counts.length < 3 then 2
    else
      match valleyScan ws counts with
      | some c => c + 1
      | none => fallbackCutoff g

/-- `velvet_optimizations.walk_path_with_coverage`'s loop: after the first
step, stop when the current node is not a simple pass-through
(`out != 1 or in > 1`); otherwise follow the first successor, accumulating
edge weight. -/
def walkCov (g : DeBruijnGraph) (sab : Bool) :
    Nat → Nat → String → List String × Int
  | 0, _, current => ([current], 0)
  | f + 1, step, current =>
    if sab = true ∧ 0 < step ∧ (outDegOf g current ≠ 1 ∨ 1 < inDegOf g current) then
      ([current], 0)
    else
      match get_successors g current with
      | [] => ([current], 0)
      | nxt :: _ =>
        let r := walkCov g sab f (step + 1) nxt
        (current :: r.1, get_edge_weight g current nxt + r.2)

/-- `velvet_optimizations.walk_path_with_coverage`. -/
def walk_path_with_coverage (g : DeBruijnGraph) (start : String) (max_len : Nat)
    (stop_at_branch : Bool) : List String × Int :=
  walkCov g stop_at_branch max_len 0 start

/-- `velvet_optimizations.find_bubble_paths`: one coverage-walk per
successor of the branch node, each branch's coverage including the
`branch -> successor` edge itself. -/
def find_bubble_paths (g : DeBruijnGraph) (branch : String) (max_bubble_len : Nat) :
    List (List String × Int) :=
  let succs := get_successors g branch
  if succs.length < 2 then []
  else succs.map (fun s =>
    let r := walk_path_with_coverage g s max_bubble_len true
    (r.1, r.2 + get_edge_weight g branch s))

/-- `velvet_optimizations.paths_merge_at_same_node`: the common end node of
all (non-empty) walked paths, when it exists. -/
def paths_merge_at_same_node (paths : List (List String × Int)) : Option String :=
  if paths.length < 2 then none
  else
    match paths.filterMap (fun p => p.1.getLast?) with
    | [] => none
    | e :: t => if t.all (fun x => x = e) then some e else none

/-- The `min_cov = inf` selection loop of
`velvet_optimizations.remove_weakest_bubble_path`: index of the first path
of strictly minimal coverage (`none` plays the initial infinity). -/
def weakestGo : List (List String × Int) → Nat → Option Int → Nat → Nat
  | [], _, _, best => best
  | (_, cov) :: rest, i, mc, best =>
    match mc with
    | none => weakestGo rest (i + 1) (some cov) i
    | some m =>
      if cov < m then weakestGo rest (i + 1) (some cov) i
      else weakestGo rest (i + 1) (some m) best

/-- First index attaining the minimal accumulated coverage. -/
def weakestIdx (paths : List (List String × Int)) : Nat :=
  weakestGo paths 0 none 0

/-- The node set Python subtracts from `weakest_path[:-1]`: every node of
the other walked paths (`for i, (path, _) in enumerate(paths) if i !=
weakest_idx`), with `i0` the index of the first listed path. -/
def otherPathNodesGo (widx : Nat) : Nat → List (List String × Int) → List String
  | _, [] => []
  | i, p :: rest =>
    (if i ≠ widx then p.1 else []) ++ otherPathNodesGo widx (i + 1) rest

/-- All nodes of the paths other than the weakest-indexed one. -/
def otherPathNodes (paths : List (List String × Int)) (widx : Nat) : List String :=
  otherPathNodesGo widx 0 paths

/-- One node removal of `remove_weakest_bubble_path`'s cleanup loop:
remove the node only if it still exists and became isolated or dead-ended
(`in = 0 or out = 0`). -/
def bubbleNodeRemove (h : DeBruijnGraph) (x : String) : DeBruijnGraph :=
  if node_exists h x then
    if inDegOf h x = 0 ∨ outDegOf h x = 0 then remove_node h x else h
  else h

/-- `velvet_optimizations.remove_weakest_bubble_path`: pick the weakest
branch, delete its first edge from the branch node, then remove those of
its interior nodes (not shared with the other branches) that became
isolated or dead-ended.  Python iterates the node set in unspecified
order; the deduplicated path order is fixed here. -/
def remove_weakest_bubble_path (g : DeBruijnGraph)
    (paths : List (List String × Int)) (branch : String) :
    DeBruijnGraph × Bool :=
  if paths.length < 2 then (g, false)
  else
    let widx := weakestIdx paths
    match (paths.getD widx ([], 0)).1 with
    | [] => (g, false)
    | first :: wrest =>
      let g1 := remove_edge g branch first
      let shared := otherPathNodes paths widx
      let ntr := (((first :: wrest).dropLast.foldl nodesAdd []).filter
        (fun x => x ∉ shared))
      (ntr.foldl bubbleNodeRemove g1, true)

/-- The inner branch loop of `velvet_optimizations.tour_bus`: visit each
snapshot branch node that still exists with `out_degree >= 2`, and resolve
its bubble when all walked branches merge at one node. -/
def tourBusInner (max_bubble_len : Nat) :
    List String → DeBruijnGraph → DeBruijnGraph × Nat
  | [], g => (g, 0)
  | b :: rest, g =>
    if ¬ node_exists g b then tourBusInner max_bubble_len rest g
    else if outDegOf g b < 2 then tourBusInner max_bubble_len rest g
    else
      let paths := find_bubble_paths g b max_bubble_len
      if paths.length < 2 then tourBusInner max_bubble_len rest g
      else
        match paths_merge_at_same_node paths with
        | some _ =>
          let r := remove_weakest_bubble_path g paths b
          let t := tourBusInner max_bubble_len rest r.1
          (t.1, (if r.2 then 1 else 0) + t.2)
        | none => tourBusInner max_bubble_len rest g

/-- The iteration loop of `velvet_optimizations.tour_bus`: re-scan branch
nodes until a full pass resolves nothing or the cap is hit. -/
def tourBusIter (max_bubble_len : Nat) : Nat → DeBruijnGraph → DeBruijnGraph
  | 0, g => g
  | it + 1, g =>
    let branches := g.nodes.filter (fun n => 2 ≤ outDegOf g n)
    let r := tourBusInner max_bubble_len branches g
    if r.2 = 0 then r.1
    else tourBusIter max_bubble_len it r.1

/-- `velvet_optimizations.tour_bus`. -/
def tour_bus (g : DeBruijnGraph) (max_bubble_len : Nat) (max_iterations : Nat) :
    DeBruijnGraph :=
  tourBusIter max_bubble_len max_iterations g

/-- Assembly statistics record of `traversal.contig_stats` (`mean_length`
is a rational; `round(·, 1)` is modelled exactly below). -/
structure ContigStats where
  num_contigs : Nat
  total_length : Nat
  longest : Nat
  shortest : Nat
  mean_length : ℚ
  n50 : Nat
deriving DecidableEq

/-- Insert into a descending list (`sorted(..., reverse=True)`). -/
def insertDesc (x : Nat) : List Nat → List Nat
  | [] => [x]
  | y :: t => if y ≤ x then x :: y :: t else y :: insertDesc x t

/-- `sorted(l, reverse=True)`. -/
def sortDesc (l : List Nat) : List Nat :=
  l.foldr insertDesc []

/-- The N50 accumulation loop: first length (scanning descending) at which
the running sum reaches half the total; `cumsum >= total / 2` is the exact
`2 * cumsum >= total`.  The initial `n50 = 0` survives an exhausted loop. -/
def n50Go (total : Nat) : List Nat → Nat → Nat
  | [], _ => 0
  | l :: rest, cumsum =>
    if total ≤ 2 * (cumsum + l) then l else n50Go total rest (cumsum + l)

/-- Python's `round` to one decimal: nearest multiple of 1/10, ties to the
even multiple (banker's rounding). -/
def roundTenthsHalfEven (x : ℚ) : ℚ :=
  let y := 10 * x
  let f : ℤ := ⌊y⌋
  let r : ℚ := y - (f : ℚ)
  let n : ℤ :=
    if r < 1 / 2 then f
    else if 1 / 2 < r then f + 1
    else if Even f then f else f + 1
  (n : ℚ) / 10

/-- `traversal.contig_stats`. -/
def contig_stats (contigs : List String) : ContigStats :=
  if contigs = [] then
    { num_contigs := 0, total_length := 0, longest := 0, shortest := 0
      mean_length := 0, n50 := 0 }
  else
    let lengths := sortDesc (contigs.map (·.length))
    let total := lengths.sum
    { num_contigs := contigs.length
      total_length := total
      longest := lengths.headD 0
      shortest := lengths.getLastD 0
      mean_length := roundTenthsHalfEven ((total : ℚ) / (contigs.length : ℚ))
      n50 := n50Go total lengths 0 }

/-! ### Dictionary lemmas -/

theorem dictGet?_insert_self {β : Type} (d : Dict β) (k : String) (v : β) :
    dictGet? (dictInsert d k v) k = some v := by
  induction d with
  | nil => simp [dictInsert, dictGet?]
  | cons p t ih =>
    obtain ⟨a, b⟩ := p
    by_cases h : a = k
    · simp [dictInsert, dictGet?, h]
    · simp [dictInsert, dictGet?, h, ih]

theorem dictGet?_insert_ne {β : Type} (d : Dict β) (k k' : String) (v : β)
    (h : k ≠ k') : dictGet? (dictInsert d k v) k' = dictGet? d k' := by
  induction d with
  | nil => simp [dictInsert, dictGet?, h]
  | cons p t ih =>
    obtain ⟨a, b⟩ := p
    by_cases ha : a = k
    · subst ha; simp [dictInsert, dictGet?, h]
    · simp [dictInsert, ha, dictGet?, ih]

theorem dictMem_insert {β : Type} (d : Dict β) (k k' : String) (v : β)
    (h : dictMem d k') : dictMem (dictInsert d k v) k' := by
  by_cases hk : k = k'
  · subst hk; simp [dictMem, dictGet?_insert_self]
  · simpa [dictMem, dictGet?_insert_ne d k k' v hk] using h

theorem dictGet?_erase_ne {β : Type} (d : Dict β) (k k' : String) (h : k' ≠ k) :
    dictGet? (dictErase d k) k' = dictGet? d k' := by
  induction d with
  | nil => simp [dictErase, dictGet?]
  | cons p t ih =>
    obtain ⟨a, b⟩ := p
    by_cases hk : a = k
    · subst hk
      have : ¬ a = k' := fun hc => h hc.symm
      simp [dictErase, dictGet?, this]
      simpa [dictErase] using ih
    · by_cases ha : a = k'
      · subst ha; simp [dictErase, dictGet?, hk]
      · simp [dictErase, dictGet?, hk, ha]
        simpa [dictErase] using ih

theorem dictMem_erase_self {β : Type} (d : Dict β) (k : String) :
    ¬ dictMem (dictErase d k) k := by
  induction d with
  | nil => simp [dictErase, dictMem, dictGet?]
  | cons p t ih =>
    obtain ⟨a, b⟩ := p
    by_cases hk : a = k
    · subst hk; simpa [dictErase, dictMem] using ih
    · simpa [dictErase, dictMem, dictGet?, hk] using ih

theorem dictGetD_degIncr_self (d : Dict Int) (k : String) (c : Int) :
    dictGetD (degIncr d k c) k 0 = dictGetD d k 0 + c := by
  simp [degIncr, dictGetD, dictGet?_insert_self]

theorem dictGetD_degIncr_ne (d : Dict Int) (k k' : String) (c : Int)
    (h : k ≠ k') : dictGetD (degIncr d k c) k' 0 = dictGetD d k' 0 := by
  simp [degIncr, dictGetD, dictGet?_insert_ne d k k' _ h]

theorem dictMem_degIncr (d : Dict Int) (k k' : String) (c : Int)
    (h : dictMem d k') : dictMem (degIncr d k c) k' :=
  dictMem_insert d k k' _ h

theorem dictGetD_ensureKey (d : Dict Int) (k k' : String) :
    dictGetD (ensureKey d k) k' 0 = dictGetD d k' 0 := by
  unfold ensureKey
  by_cases hm : dictMem d k
  · simp [hm]
  · simp only [hm, if_false]
    by_cases hk : k = k'
    · subst hk
      have : dictGet? d k = none := by
        by_cases h : (dictGet? d k).isSome = true
        · exact absurd h hm
        · simpa using h
      simp [dictGetD, dictGet?_insert_self, this]
    · simp [dictGetD, dictGet?_insert_ne d k k' _ hk]

theorem dictMem_ensureKey (d : Dict Int) (k k' : String) (h : dictMem d k') :
    dictMem (ensureKey d k) k' := by
  unfold ensureKey
  by_cases hm : dictMem d k
  · simpa [hm] using h
  · simpa [hm] using dictMem_insert d k k' _ h

/-! ### C1: `remove_edge` and zero-degree eviction -/

/-- The one-edge graph `AC -> CG`, then that edge removed. -/
def c1Graph : DeBruijnGraph := add_edge (emptyGraph 3) "AC" "CG" 1

/-- C1, counterexample: in the graph holding only the edge `AC -> CG`,
removing that edge leaves `AC` with in-degree and out-degree both 0, yet
`AC` is still in the node set and in both degree maps — `remove_edge`
performs no eviction, contradicting the claim. -/
theorem c1_counterexample :
    edgeMem c1Graph "AC" "CG" ∧
    inDegOf (remove_edge c1Graph "AC" "CG") "AC" = 0 ∧
    outDegOf (remove_edge c1Graph "AC" "CG") "AC" = 0 ∧
    node_exists (remove_edge c1Graph "AC" "CG") "AC" ∧
    dictMem (remove_edge c1Graph "AC" "CG").in_degree "AC" ∧
    dictMem (remove_edge c1Graph "AC" "CG").out_degree "AC" := by
  decide

/-- C1, amended: `remove_edge` deletes the edge and decrements the two
degree counters but never evicts a node: the node set is unchanged and
every key of either degree map stays a key, even when its degrees reach
zero.  (Eviction of isolated nodes is done elsewhere, by `remove_node`
and `apply_coverage_cutoff`.) -/
theorem c1_amended_remove_edge_no_eviction (g : DeBruijnGraph) (u v : String) :
    (remove_edge g u v).nodes = g.nodes ∧
    (∀ n, dictMem g.in_degree n → dictMem (remove_edge g u v).in_degree n) ∧
    (∀ n, dictMem g.out_degree n → dictMem (remove_edge g u v).out_degree n) := by
  refine ⟨?_, fun n h => ?_, fun n h => ?_⟩
  · unfold remove_edge
    split
    · rfl
    · split
      · rfl
      · rfl
  · unfold remove_edge
    split
    · exact h
    · split
      · exact dictMem_degIncr _ _ _ _ h
      · exact h
  · unfold remove_edge
    split
    · exact h
    · split
      · exact dictMem_degIncr _ _ _ _ h
      · exact h

/-- Witness for the amended C1 theorem: on the concrete one-edge graph,
the zero-degree endpoint `AC` is still a key of the in-degree map after
the removal. -/
theorem c1_amended_witness :
    dictMem (remove_edge c1Graph "AC" "CG").in_degree "AC" :=
  (c1_amended_remove_edge_no_eviction c1Graph "AC" "CG").2.1 "AC" (by decide)

/-! ### C4 and C10: `build_graph_from_kmers` error behaviour -/

theorem buildGo_ne_emptyInput (k : Nat) (m : Int) (l : List (String × Int))
    (g : DeBruijnGraph) : buildGo k m l g ≠ .error .EmptyInput := by
  induction l generalizing g with
  | nil => simp [buildGo]
  | cons p rest ih =>
    obtain ⟨kmer, count⟩ := p
    by_cases hc : count < m
    · simpa [buildGo, hc] using ih g
    · by_cases hl : kmer.length ≠ k
      · simp [buildGo, hc, hl]
      · simpa [buildGo, hc, hl] using ih _

theorem buildGo_invalid_iff (k : Nat) (m : Int) (l : List (String × Int))
    (g : DeBruijnGraph) :
    buildGo k m l g = .error .InvalidKmerLength ↔
      ∃ p ∈ l, m ≤ p.2 ∧ p.1.length ≠ k := by
  induction l generalizing g with
  | nil => simp [buildGo]
  | cons p rest ih =>
    obtain ⟨kmer, count⟩ := p
    by_cases hc : count < m
    · have hnot : ¬ m ≤ count := by omega
      simp [buildGo, hc, ih g, hnot]
    · have hle : m ≤ count := by omega
      by_cases hl : kmer.length ≠ k
      · simp [buildGo, hc, hl, hle]
      · have hk : kmer.length = k := by simpa using hl
        simp [buildGo, hc, hk, ih, hle]

theorem buildGo_ok_of_lengths (k : Nat) (m : Int) (l : List (String × Int))
    (g : DeBruijnGraph) (h : ∀ p ∈ l, m ≤ p.2 → p.1.length = k) :
    ∃ g', buildGo k m l g = .ok g' := by
  induction l generalizing g with
  | nil => exact ⟨g, rfl⟩
  | cons p rest ih =>
    obtain ⟨kmer, count⟩ := p
    by_cases hc : count < m
    · simpa [buildGo, hc] using ih g (fun q hq => h q (List.mem_cons_of_mem _ hq))
    · have hle : m ≤ count := by omega
      have hk : kmer.length = k := h (kmer, count) (List.mem_cons_self _ _) hle
      simpa [buildGo, hc, hk] using
        ih _ (fun q hq => h q (List.mem_cons_of_mem _ hq))

/-- C4: `build_graph_from_kmers` raises `EmptyInput` exactly on an empty
k-mer mapping, raises `InvalidKmerLength` exactly when some k-mer passing
the count threshold has length ≠ k, and otherwise returns a graph. -/
theorem c4_build_graph_error_conditions (kc : List (String × Int)) (k : Nat)
    (m : Int) :
    (build_graph_from_kmers kc k m = .error .EmptyInput ↔ kc = []) ∧
    (build_graph_from_kmers kc k m = .error .InvalidKmerLength ↔
      ∃ p ∈ kc, m ≤ p.2 ∧ p.1.length ≠ k) ∧
    ((kc ≠ [] ∧ ∀ p ∈ kc, m ≤ p.2 → p.1.length = k) →
      ∃ g, build_graph_from_kmers kc k m = .ok g) := by
  refine ⟨?_, ?_, ?_⟩
  · unfold build_graph_from_kmers
    by_cases he : kc = []
    · simp [he]
    · simp only [he, if_false, iff_false]
      exact buildGo_ne_emptyInput k m kc (emptyGraph k)
  · unfold build_graph_from_kmers
    by_cases he : kc = []
    · subst he; simp
    · simpa [he] using buildGo_invalid_iff k m kc (emptyGraph k)
  · rintro ⟨hne, hall⟩
    unfold build_graph_from_kmers
    simpa [hne] using buildGo_ok_of_lengths k m kc (emptyGraph k) hall

/-- Witness for C4: a mapping with a single valid 3-mer builds a graph. -/
theorem c4_witness : ∃ g, build_graph_from_kmers [("ACG", 5)] 3 2 = .ok g :=
  (c4_build_graph_error_conditions [("ACG", 5)] 3 2).2.2
    ⟨by decide, by decide⟩

theorem buildGo_skip_all (k : Nat) (m : Int) (l : List (String × Int))
    (g : DeBruijnGraph) (h : ∀ p ∈ l, p.2 < m) : buildGo k m l g = .ok g := by
  induction l with
  | nil => rfl
  | cons p rest ih =>
    obtain ⟨kmer, count⟩ := p
    have hc : count < m := h (kmer, count) (List.mem_cons_self _ _)
    simpa [buildGo, hc] using ih (fun q hq => h q (List.mem_cons_of_mem _ hq))

/-- C10: a non-empty k-mer mapping in which every count is below the
threshold builds, without error, a graph with an empty node set and no
edges; the length check is never applied to filtered-out k-mers, so they
may have any length. -/
theorem c10_all_below_threshold (kc : List (String × Int)) (k : Nat) (m : Int)
    (hne : kc ≠ []) (hall : ∀ p ∈ kc, p.2 < m) :
    ∃ g, build_graph_from_kmers kc k m = .ok g ∧ g.nodes = [] ∧
      g.out_edges = [] := by
  refine ⟨emptyGraph k, ?_, rfl, rfl⟩
  unfold build_graph_from_kmers
  simpa [hne] using buildGo_skip_all k m kc (emptyGraph k) hall

/-- Witness for C10: both k-mers are below the count threshold, one of the
wrong length, and the build still succeeds with an empty graph. -/
theorem c10_witness :
    ∃ g, build_graph_from_kmers [("AC", 1), ("TTTT", 1)] 3 2 = .ok g ∧
      g.nodes = [] ∧ g.out_edges = [] :=
  c10_all_below_threshold [("AC", 1), ("TTTT", 1)] 3 2 (by decide) (by decide)

/-! ### C3: repeated `add_edge` on the same ordered pair -/

theorem dictKeys_insert_of_mem {β : Type} (d : Dict β) (k : String) (v : β)
    (h : dictMem d k) : dictKeys (dictInsert d k v) = dictKeys d := by
  induction d with
  | nil => simp [dictMem, dictGet?] at h
  | cons p t ih =>
    obtain ⟨a, b⟩ := p
    by_cases ha : a = k
    · simp [dictInsert, ha, dictKeys]
    · have ht : dictMem t k := by simpa [dictMem, dictGet?, ha] using h
      simp [dictInsert, ha, dictKeys, ih ht]
      simpa [dictKeys] using ih ht

theorem dictKeys_insert_of_not_mem {β : Type} (d : Dict β) (k : String) (v : β)
    (h : ¬ dictMem d k) : dictKeys (dictInsert d k v) = dictKeys d ++ [k] := by
  induction d with
  | nil => simp [dictInsert, dictKeys]
  | cons p t ih =>
    obtain ⟨a, b⟩ := p
    by_cases ha : a = k
    · exact absurd (by simp [dictMem, dictGet?, ha]) h
    · have ht : ¬ dictMem t k := fun hc => h (by simpa [dictMem, dictGet?, ha] using hc)
      simp [dictInsert, ha, dictKeys] at ih ⊢
      simpa [dictKeys] using ih ht

theorem count_keys_zero_of_not_mem {β : Type} (d : Dict β) (k : String)
    (h : ¬ dictMem d k) : (dictKeys d).count k = 0 := by
  induction d with
  | nil => simp [dictKeys]
  | cons p t ih =>
    obtain ⟨a, b⟩ := p
    by_cases ha : a = k
    · exact absurd (by simp [dictMem, dictGet?, ha]) h
    · have ht : ¬ dictMem t k := fun hc => h (by simpa [dictMem, dictGet?, ha] using hc)
      simpa [dictKeys, List.count_cons, ha] using ih ht

theorem dictMem_of_get?_some {β : Type} (d : Dict β) (k : String) (v : β)
    (h : dictGet? d k = some v) : dictMem d k := by
  simp [dictMem, h]

theorem add_edge_of_not_mem (g : DeBruijnGraph) (u v : String) (w : Int)
    (h : ¬ edgeMem g u v) :
    (add_edge g u v w).out_edges
        = dictInsert g.out_edges u (dictInsert (dictGetD g.out_edges u []) v w) ∧
      (add_edge g u v w).out_degree = ensureKey (degIncr g.out_degree u 1) v ∧
      (add_edge g u v w).in_degree = ensureKey (degIncr g.in_degree v 1) u := by
  unfold add_edge
  unfold edgeMem at h
  simp [h]

theorem add_edge_of_mem (g : DeBruijnGraph) (u v : String) (w : Int)
    (h : edgeMem g u v) :
    (add_edge g u v w).out_edges
        = dictInsert g.out_edges u
            (dictInsert (dictGetD g.out_edges u []) v
              (dictGetD (dictGetD g.out_edges u []) v 0 + w)) ∧
      (add_edge g u v w).out_degree = ensureKey g.out_degree v ∧
      (add_edge g u v w).in_degree = ensureKey g.in_degree u := by
  unfold add_edge
  unfold edgeMem at h
  simp [h]

theorem add_edge_inner_of_not_mem (g : DeBruijnGraph) (u v : String) (w : Int)
    (h : ¬ edgeMem g u v) :
    dictGetD (add_edge g u v w).out_edges u []
      = dictInsert (dictGetD g.out_edges u []) v w := by
  rw [(add_edge_of_not_mem g u v w h).1]
  simp [dictGetD, dictGet?_insert_self]

theorem add_edge_inner_of_mem (g : DeBruijnGraph) (u v : String) (w : Int)
    (h : edgeMem g u v) :
    dictGetD (add_edge g u v w).out_edges u []
      = dictInsert (dictGetD g.out_edges u []) v
          (dictGetD (dictGetD g.out_edges u []) v 0 + w) := by
  rw [(add_edge_of_mem g u v w h).1]
  simp [dictGetD, dictGet?_insert_self]

theorem add_edge_mem_self (g : DeBruijnGraph) (u v : String) (w : Int) :
    edgeMem (add_edge g u v w) u v := by
  by_cases h : edgeMem g u v
  · unfold edgeMem
    rw [add_edge_inner_of_mem g u v w h]
    simp [dictMem, dictGet?_insert_self]
  · unfold edgeMem
    rw [add_edge_inner_of_not_mem g u v w h]
    simp [dictMem, dictGet?_insert_self]

theorem add_edge_weight_of_mem (g : DeBruijnGraph) (u v : String) (w : Int)
    (h : edgeMem g u v) :
    get_edge_weight (add_edge g u v w) u v = get_edge_weight g u v + w := by
  unfold get_edge_weight
  rw [add_edge_inner_of_mem g u v w h]
  simp [dictGetD, dictGet?_insert_self]

theorem add_edge_deg_of_mem (g : DeBruijnGraph) (u v : String) (w : Int)
    (h : edgeMem g u v) :
    (∀ x, outDegOf (add_edge g u v w) x = outDegOf g x) ∧
    (∀ x, inDegOf (add_edge g u v w) x = inDegOf g x) := by
  constructor
  · intro x
    unfold outDegOf
    rw [(add_edge_of_mem g u v w h).2.1]
    exact dictGetD_ensureKey _ _ _
  · intro x
    unfold inDegOf
    rw [(add_edge_of_mem g u v w h).2.2]
    exact dictGetD_ensureKey _ _ _

theorem add_edge_keys_of_mem (g : DeBruijnGraph) (u v : String) (w : Int)
    (h : edgeMem g u v) :
    dictKeys (dictGetD (add_edge g u v w).out_edges u [])
      = dictKeys (dictGetD g.out_edges u []) := by
  rw [add_edge_inner_of_mem g u v w h]
  exact dictKeys_insert_of_mem _ _ _ h

/-- `DeBruijnGraph.add_edge` folded over a list of weights for one fixed
ordered pair. -/
def add_edge_repeat (g : DeBruijnGraph) (u v : String) (ws : List Int) :
    DeBruijnGraph :=
  ws.foldl (fun h w => add_edge h u v w) g

theorem add_edge_repeat_of_mem (g : DeBruijnGraph) (u v : String)
    (ws : List Int) (h : edgeMem g u v) :
    get_edge_weight (add_edge_repeat g u v ws) u v
        = get_edge_weight g u v + ws.sum ∧
      dictKeys (dictGetD (add_edge_repeat g u v ws).out_edges u [])
        = dictKeys (dictGetD g.out_edges u []) ∧
      (∀ x, outDegOf (add_edge_repeat g u v ws) x = outDegOf g x) ∧
      (∀ x, inDegOf (add_edge_repeat g u v ws) x = inDegOf g x) := by
  induction ws generalizing g with
  | nil => simp [add_edge_repeat]
  | cons w rest ih =>
    have hmem' : edgeMem (add_edge g u v w) u v := add_edge_mem_self g u v w
    have hrec := ih (add_edge g u v w) hmem'
    have hstep := add_edge_weight_of_mem g u v w h
    have hdeg := add_edge_deg_of_mem g u v w h
    have hkeys := add_edge_keys_of_mem g u v w h
    have hfold : add_edge_repeat g u v (w :: rest)
        = add_edge_repeat (add_edge g u v w) u v rest := rfl
    refine ⟨?_, ?_, ?_, ?_⟩
    · rw [hfold, hrec.1, hstep]
      simp [List.sum_cons]
      ring
    · rw [hfold, hrec.2.1, hkeys]
    · intro x; rw [hfold, hrec.2.2.1 x, hdeg.1 x]
    · intro x; rw [hfold, hrec.2.2.2 x, hdeg.2 x]

/-- C3: folding `add_edge` over weights `w1..wn` (n ≥ 1) for one ordered
pair `(u, v)` absent from the initial graph yields exactly one recorded
edge `(u, v)` whose weight is the sum of the weights, while `out_degree[u]`
and `in_degree[v]` each grow by exactly 1 overall. -/
theorem c3_add_edge_accumulates (g : DeBruijnGraph) (u v : String)
    (ws : List Int) (hnew : ¬ edgeMem g u v) (hne : ws ≠ []) :
    get_edge_weight (add_edge_repeat g u v ws) u v = ws.sum ∧
    (dictKeys (dictGetD (add_edge_repeat g u v ws).out_edges u [])).count v = 1 ∧
    outDegOf (add_edge_repeat g u v ws) u = outDegOf g u + 1 ∧
    inDegOf (add_edge_repeat g u v ws) v = inDegOf g v + 1 := by
  match ws, hne with
  | w :: rest, _ =>
    have hfold : add_edge_repeat g u v (w :: rest)
        = add_edge_repeat (add_edge g u v w) u v rest := rfl
    have hmem : edgeMem (add_edge g u v w) u v := add_edge_mem_self g u v w
    have hrec := add_edge_repeat_of_mem (add_edge g u v w) u v rest hmem
    have hw1 : get_edge_weight (add_edge g u v w) u v = w := by
      unfold get_edge_weight
      rw [add_edge_inner_of_not_mem g u v w hnew]
      simp [dictGetD, dictGet?_insert_self]
    have hkeys1 : dictKeys (dictGetD (add_edge g u v w).out_edges u [])
        = dictKeys (dictGetD g.out_edges u []) ++ [v] := by
      rw [add_edge_inner_of_not_mem g u v w hnew]
      exact dictKeys_insert_of_not_mem _ _ _ hnew
    have hout1 : outDegOf (add_edge g u v w) u = outDegOf g u + 1 := by
      unfold outDegOf
      rw [(add_edge_of_not_mem g u v w hnew).2.1, dictGetD_ensureKey,
        dictGetD_degIncr_self]
    have hin1 : inDegOf (add_edge g u v w) v = inDegOf g v + 1 := by
      unfold inDegOf
      rw [(add_edge_of_not_mem g u v w hnew).2.2, dictGetD_ensureKey,
        dictGetD_degIncr_self]
    refine ⟨?_, ?_, ?_, ?_⟩
    · rw [hfold, hrec.1, hw1]; simp [List.sum_cons]
    · rw [hfold, hrec.2.1, hkeys1]
      simp [count_keys_zero_of_not_mem _ _ hnew]
    · rw [hfold, hrec.2.2.1 u, hout1]
    · rw [hfold, hrec.2.2.2 v, hin1]

/-- Witness for C3: three repeated additions of `AC -> CG` with weights
2, 3, 4 on the empty graph leave a single edge of weight 9 and degree
counters at 1. -/
theorem c3_witness :
    get_edge_weight (add_edge_repeat (emptyGraph 3) "AC" "CG" [2, 3, 4]) "AC" "CG"
        = ([2, 3, 4] : List Int).sum ∧
      (dictKeys (dictGetD (add_edge_repeat (emptyGraph 3) "AC" "CG" [2, 3, 4]).out_edges
        "AC" [])).count "CG" = 1 ∧
      outDegOf (add_edge_repeat (emptyGraph 3) "AC" "CG" [2, 3, 4]) "AC"
        = outDegOf (emptyGraph 3) "AC" + 1 ∧
      inDegOf (add_edge_repeat (emptyGraph 3) "AC" "CG" [2, 3, 4]) "CG"
        = inDegOf (emptyGraph 3) "CG" + 1 :=
  c3_add_edge_accumulates (emptyGraph 3) "AC" "CG" [2, 3, 4] (by decide) (by decide)

/-! ### C2: `remove_node` -/

/-- Key-uniqueness of every dictionary of the store: automatic for Python
dicts, an explicit hypothesis for the association-list model. -/
def WFDicts (g : DeBruijnGraph) : Prop :=
  (dictKeys g.out_edges).Nodup ∧
  (∀ p ∈ g.out_edges, (dictKeys p.2).Nodup) ∧
  (dictKeys g.in_degree).Nodup ∧
  (dictKeys g.out_degree).Nodup

instance (g : DeBruijnGraph) : Decidable (WFDicts g) := by
  unfold WFDicts; infer_instance
theorem dictMem_iff_mem_keys {β : Type} (d : Dict β) (k : String) :
    dictMem d k ↔ k ∈ dictKeys d := by
  induction d with
  | nil => simp [dictMem, dictGet?, dictKeys]
  | cons p t ih =>
    obtain ⟨a, b⟩ := p
    by_cases ha : a = k
    · subst ha; simp [dictMem, dictGet?, dictKeys]
    · have h1 : dictGet? ((a, b) :: t) k = dictGet? t k := by simp [dictGet?, ha]
      have h2 : dictKeys ((a, b) :: t) = a :: dictKeys t := rfl
      unfold dictMem
      rw [h1, h2, List.mem_cons]
      unfold dictMem at ih
      rw [ih]
      constructor
      · exact Or.inr
      · rintro (h | h)
        · exact absurd h.symm ha
        · exact h

theorem dictGet?_eq_none_of_not_mem {β : Type} (d : Dict β) (k : String)
    (h : ¬ dictMem d k) : dictGet? d k = none := by
  unfold dictMem at h
  exact Option.not_isSome_iff_eq_none.mp (by simpa using h)

theorem dictGet?_some_mem {β : Type} (d : Dict β) (k : String) (v : β)
    (h : dictGet? d k = some v) : (k, v) ∈ d := by
  induction d with
  | nil => simp [dictGet?] at h
  | cons p t ih =>
    obtain ⟨a, b⟩ := p
    by_cases ha : a = k
    · subst ha
      simp [dictGet?] at h
      simp [h]
    · simp [dictGet?, ha] at h
      exact List.mem_cons_of_mem _ (ih h)

theorem dictGetD_erase_ne {β : Type} (d : Dict β) (k k' : String) (v0 : β)
    (h : k' ≠ k) : dictGetD (dictErase d k) k' v0 = dictGetD d k' v0 := by
  unfold dictGetD
  rw [dictGet?_erase_ne d k k' h]

theorem dictErase_of_not_mem {β : Type} (d : Dict β) (k : String)
    (h : ¬ dictMem d k) : dictErase d k = d := by
  rw [dictMem_iff_mem_keys] at h
  unfold dictErase
  refine List.filter_eq_self.mpr ?_
  intro p hp
  have : p.1 ≠ k := fun hc => h (hc ▸ List.mem_map_of_mem (·.1) hp)
  simpa using this

theorem dictErase_keys_sublist {β : Type} (d : Dict β) (k : String) :
    List.Sublist (dictKeys (dictErase d k)) (dictKeys d) := by
  unfold dictErase dictKeys
  exact (List.filter_sublist d).map (·.1)

theorem dictGetD_foldl_decr (L : List String) (d : Dict Int) (v : String) :
    dictGetD (L.foldl (fun d x => degIncr d x (-1)) d) v 0
      = dictGetD d v 0 - (L.count v : Int) := by
  induction L generalizing d with
  | nil => simp
  | cons x L' ih =>
    rw [List.foldl_cons, ih]
    by_cases hx : x = v
    · rw [hx, dictGetD_degIncr_self]
      have h1 : (v :: L').count v = L'.count v + 1 := by
        simp [List.count_cons]
      rw [h1]
      push_cast
      ring
    · rw [dictGetD_degIncr_ne d x v _ hx]
      have hvx : v ≠ x := fun hc => hx hc.symm
      have h1 : (x :: L').count v = L'.count v := by
        simp [List.count_cons, hvx]
      rw [h1]

theorem removeInEdges_no_target (n : String) (l : List (String × Dict Int))
    (od : Dict Int) (u : String) :
    ¬ dictMem (dictGetD (removeInEdges n l od).1 u []) n := by
  induction l generalizing od with
  | nil => simp [removeInEdges, dictGetD, dictGet?, dictMem]
  | cons p rest ih =>
    obtain ⟨a, inner⟩ := p
    by_cases hm : dictMem inner n
    · simp only [removeInEdges, hm, if_true]
      by_cases he : dictErase inner n = []
      · simpa [he] using ih (degIncr od a (-1))
      · simp only [he, if_false]
        by_cases ha : a = u
        · subst ha
          simpa [dictGetD, dictGet?] using dictMem_erase_self inner n
        · simpa [dictGetD, dictGet?, ha] using ih (degIncr od a (-1))
    · simp only [removeInEdges, hm, if_false]
      by_cases ha : a = u
      · subst ha
        simpa [dictGetD, dictGet?] using hm
      · simpa [dictGetD, dictGet?, ha] using ih od

theorem removeInEdges_keys_sublist (n : String) (l : List (String × Dict Int))
    (od : Dict Int) :
    List.Sublist (dictKeys (removeInEdges n l od).1) (dictKeys l) := by
  induction l generalizing od with
  | nil => simp [removeInEdges]
  | cons p rest ih =>
    obtain ⟨a, inner⟩ := p
    by_cases hm : dictMem inner n
    · simp only [removeInEdges, hm, if_true]
      by_cases he : dictErase inner n = []
      · simp only [he, if_true]
        exact ((ih (degIncr od a (-1))).trans (List.sublist_cons_self _ _))
      · simp only [he, if_false]
        exact (ih (degIncr od a (-1))).cons₂ a
    · simp only [removeInEdges, hm, if_false]
      exact (ih od).cons₂ a

theorem removeInEdges_deg (n : String) (l : List (String × Dict Int))
    (od : Dict Int) (u : String) :
    dictGetD (removeInEdges n l od).2 u 0
      = dictGetD od u 0
        - (((l.filter (fun p => dictMem p.2 n)).map (·.1)).count u : Int) := by
  induction l generalizing od with
  | nil => simp [removeInEdges]
  | cons p rest ih =>
    obtain ⟨a, inner⟩ := p
    by_cases hm : dictMem inner n
    · have hsnd : (removeInEdges n ((a, inner) :: rest) od).2
          = (removeInEdges n rest (degIncr od a (-1))).2 := by
        simp only [removeInEdges, hm, if_true]
      rw [hsnd, ih (degIncr od a (-1))]
      by_cases ha : a = u
      · subst ha
        rw [dictGetD_degIncr_self]
        have h1 : (((a, inner) :: rest).filter (fun p => dictMem p.2 n)).map (·.1)
            = a :: ((rest.filter (fun p => dictMem p.2 n)).map (·.1)) := by
          simp [hm]
        rw [h1, List.count_cons_self]
        push_cast
        ring
      · rw [dictGetD_degIncr_ne od a u _ ha]
        have hua : u ≠ a := fun hc => ha hc.symm
        have h1 : (((a, inner) :: rest).filter (fun p => dictMem p.2 n)).map (·.1)
            = a :: ((rest.filter (fun p => dictMem p.2 n)).map (·.1)) := by
          simp [hm]
        rw [h1, List.count_cons_of_ne hua]
    · have hsnd : (removeInEdges n ((a, inner) :: rest) od).2
          = (removeInEdges n rest od).2 := by
        simp only [removeInEdges, hm, if_false]
      rw [hsnd, ih od]
      have h1 : (((a, inner) :: rest).filter (fun p => dictMem p.2 n))
          = rest.filter (fun p => dictMem p.2 n) := by
        simp [hm]
      rw [h1]

theorem count_sources_with_edge (n : String) (l : List (String × Dict Int))
    (hnd : (dictKeys l).Nodup) (u : String) :
    ((l.filter (fun p => dictMem p.2 n)).map (·.1)).count u
      = if dictMem (dictGetD l u []) n then 1 else 0 := by
  induction l with
  | nil => simp [dictGetD, dictGet?, dictMem]
  | cons p rest ih =>
    obtain ⟨a, inner⟩ := p
    have hnd' : (dictKeys rest).Nodup := (List.nodup_cons.mp hnd).2
    have hna : a ∉ dictKeys rest := (List.nodup_cons.mp hnd).1
    by_cases ha : a = u
    · subst ha
      have hzero : ((rest.filter (fun p => dictMem p.2 n)).map (·.1)).count a = 0 := by
        refine List.count_eq_zero.mpr ?_
        intro hc
        exact hna (((List.filter_sublist rest).map (·.1)).subset hc)
      have hgd : dictGetD ((a, inner) :: rest) a [] = inner := by
        simp [dictGetD, dictGet?]
      rw [hgd]
      by_cases hm : dictMem inner n
      · have h1 : (((a, inner) :: rest).filter (fun p => dictMem p.2 n)).map (·.1)
            = a :: ((rest.filter (fun p => dictMem p.2 n)).map (·.1)) := by
          simp [hm]
        rw [h1, List.count_cons_self, hzero]
        simp [hm]
      · have h1 : (((a, inner) :: rest).filter (fun p => dictMem p.2 n))
            = rest.filter (fun p => dictMem p.2 n) := by
          simp [hm]
        rw [h1, hzero]
        simp [hm]
    · have hua : u ≠ a := fun hc => ha hc.symm
      have hgd : dictGetD ((a, inner) :: rest) u [] = dictGetD rest u [] := by
        simp [dictGetD, dictGet?, ha]
      rw [hgd, ← ih hnd']
      by_cases hm : dictMem inner n
      · have h1 : (((a, inner) :: rest).filter (fun p => dictMem p.2 n)).map (·.1)
            = a :: ((rest.filter (fun p => dictMem p.2 n)).map (·.1)) := by
          simp [hm]
        rw [h1, List.count_cons_of_ne hua]
      · have h1 : (((a, inner) :: rest).filter (fun p => dictMem p.2 n))
            = rest.filter (fun p => dictMem p.2 n) := by
          simp [hm]
        rw [h1]

theorem removeInEdges_id (n : String) (l : List (String × Dict Int))
    (od : Dict Int) (h : ∀ p ∈ l, ¬ dictMem p.2 n) :
    removeInEdges n l od = (l, od) := by
  induction l generalizing od with
  | nil => rfl
  | cons p rest ih =>
    obtain ⟨a, inner⟩ := p
    have hm : ¬ dictMem inner n := h (a, inner) (List.mem_cons_self _ _)
    have hrec := ih od (fun q hq => h q (List.mem_cons_of_mem _ hq))
    simp [removeInEdges, hm, hrec]

/-- `n` is absent from the graph in every bookkeeping structure (what "not
in the graph" means for a store whose invariants hold). -/
def Absent (g : DeBruijnGraph) (n : String) : Prop :=
  n ∉ g.nodes ∧ ¬ dictMem g.in_degree n ∧ ¬ dictMem g.out_degree n ∧
    ¬ dictMem g.out_edges n ∧ ∀ p ∈ g.out_edges, ¬ dictMem p.2 n

instance (g : DeBruijnGraph) (n : String) : Decidable (Absent g n) := by
  unfold Absent; infer_instance

theorem remove_node_nodes (g : DeBruijnGraph) (n : String) :
    (remove_node g n).nodes = g.nodes.filter (fun x => x ≠ n) := by
  unfold remove_node
  cases hoe : dictGet? g.out_edges n <;> rfl

theorem remove_node_in_degree_none (g : DeBruijnGraph) (n : String)
    (hoe : dictGet? g.out_edges n = none) :
    (remove_node g n).in_degree = dictErase g.in_degree n := by
  unfold remove_node
  rw [hoe]

theorem remove_node_in_degree_some (g : DeBruijnGraph) (n : String)
    (inner : Dict Int) (hoe : dictGet? g.out_edges n = some inner) :
    (remove_node g n).in_degree
      = dictErase ((dictKeys inner).foldl (fun d v => degIncr d v (-1)) g.in_degree) n := by
  unfold remove_node
  rw [hoe]

theorem remove_node_out_degree_none (g : DeBruijnGraph) (n : String)
    (hoe : dictGet? g.out_edges n = none) :
    (remove_node g n).out_degree
      = dictErase (removeInEdges n g.out_edges g.out_degree).2 n := by
  unfold remove_node
  rw [hoe]

theorem remove_node_out_degree_some (g : DeBruijnGraph) (n : String)
    (inner : Dict Int) (hoe : dictGet? g.out_edges n = some inner) :
    (remove_node g n).out_degree
      = dictErase (removeInEdges n (dictErase g.out_edges n) g.out_degree).2 n := by
  unfold remove_node
  rw [hoe]

theorem remove_node_out_edges_none (g : DeBruijnGraph) (n : String)
    (hoe : dictGet? g.out_edges n = none) :
    (remove_node g n).out_edges
      = (removeInEdges n g.out_edges g.out_degree).1 := by
  unfold remove_node
  rw [hoe]

theorem remove_node_out_edges_some (g : DeBruijnGraph) (n : String)
    (inner : Dict Int) (hoe : dictGet? g.out_edges n = some inner) :
    (remove_node g n).out_edges
      = (removeInEdges n (dictErase g.out_edges n) g.out_degree).1 := by
  unfold remove_node
  rw [hoe]

/-- C2: after `remove_node g n`, the node `n` is gone from the node set,
from both degree maps, and from every edge (as source and as target); the
in-degree of each former successor and the out-degree of each former
predecessor drop by exactly one while other nodes' degrees are untouched;
and on an absent node the call is a no-op. -/
theorem c2_remove_node_spec (g : DeBruijnGraph) (n : String) (hwf : WFDicts g) :
    ¬ node_exists (remove_node g n) n ∧
    ¬ dictMem (remove_node g n).in_degree n ∧
    ¬ dictMem (remove_node g n).out_degree n ∧
    ¬ dictMem (remove_node g n).out_edges n ∧
    (∀ u, ¬ edgeMem (remove_node g n) u n) ∧
    (∀ v, v ≠ n → edgeMem g n v →
      inDegOf (remove_node g n) v = inDegOf g v - 1) ∧
    (∀ v, v ≠ n → ¬ edgeMem g n v →
      inDegOf (remove_node g n) v = inDegOf g v) ∧
    (∀ u, u ≠ n → edgeMem g u n →
      outDegOf (remove_node g n) u = outDegOf g u - 1) ∧
    (∀ u, u ≠ n → ¬ edgeMem g u n →
      outDegOf (remove_node g n) u = outDegOf g u) ∧
    (Absent g n → remove_node g n = g) := by
  obtain ⟨hndO, hndI, hndIn, hndOut⟩ := hwf
  refine ⟨?_, ?_, ?_, ?_, ?_, ?_, ?_, ?_, ?_, ?_⟩
  · unfold node_exists
    rw [remove_node_nodes]
    simp
  · cases hoe : dictGet? g.out_edges n with
    | none => rw [remove_node_in_degree_none g n hoe]; exact dictMem_erase_self _ n
    | some inner => rw [remove_node_in_degree_some g n inner hoe]; exact dictMem_erase_self _ n
  · cases hoe : dictGet? g.out_edges n with
    | none => rw [remove_node_out_degree_none g n hoe]; exact dictMem_erase_self _ n
    | some inner => rw [remove_node_out_degree_some g n inner hoe]; exact dictMem_erase_self _ n
  · rw [dictMem_iff_mem_keys]
    cases hoe : dictGet? g.out_edges n with
    | none =>
      rw [remove_node_out_edges_none g n hoe]
      intro hmem
      have hn : ¬ dictMem g.out_edges n := by simp [dictMem, hoe]
      rw [dictMem_iff_mem_keys] at hn
      exact hn ((removeInEdges_keys_sublist n g.out_edges g.out_degree).subset hmem)
    | some inner =>
      rw [remove_node_out_edges_some g n inner hoe]
      intro hmem
      have hn := dictMem_erase_self g.out_edges n
      rw [dictMem_iff_mem_keys] at hn
      exact hn ((removeInEdges_keys_sublist n (dictErase g.out_edges n) g.out_degree).subset hmem)
  · intro u
    unfold edgeMem
    cases hoe : dictGet? g.out_edges n with
    | none =>
      rw [remove_node_out_edges_none g n hoe]
      exact removeInEdges_no_target n _ _ u
    | some inner =>
      rw [remove_node_out_edges_some g n inner hoe]
      exact removeInEdges_no_target n _ _ u
  · intro v hv hedge
    have hsome : ∃ inner, dictGet? g.out_edges n = some inner := by
      unfold edgeMem at hedge
      cases hoe : dictGet? g.out_edges n with
      | none =>
        rw [show dictGetD g.out_edges n [] = [] from by simp [dictGetD, hoe]] at hedge
        simp [dictMem, dictGet?] at hedge
      | some inner => exact ⟨inner, rfl⟩
    obtain ⟨inner, hoe⟩ := hsome
    have hinner : dictGetD g.out_edges n [] = inner := by simp [dictGetD, hoe]
    have hvk : v ∈ dictKeys inner := by
      rw [← dictMem_iff_mem_keys]
      unfold edgeMem at hedge
      rwa [hinner] at hedge
    have hndinner : (dictKeys inner).Nodup :=
      hndI (n, inner) (dictGet?_some_mem g.out_edges n inner hoe)
    have hcount : (dictKeys inner).count v = 1 :=
      List.count_eq_one_of_mem hndinner hvk
    unfold inDegOf
    rw [remove_node_in_degree_some g n inner hoe,
      dictGetD_erase_ne _ n v 0 hv, dictGetD_foldl_decr, hcount]
    rfl
  · intro v hv hnedge
    unfold inDegOf
    cases hoe : dictGet? g.out_edges n with
    | none =>
      rw [remove_node_in_degree_none g n hoe, dictGetD_erase_ne _ n v 0 hv]
    | some inner =>
      have hinner : dictGetD g.out_edges n [] = inner := by simp [dictGetD, hoe]
      have hvk : (dictKeys inner).count v = 0 := by
        refine List.count_eq_zero.mpr ?_
        intro hc
        apply hnedge
        unfold edgeMem
        rw [hinner, dictMem_iff_mem_keys]
        exact hc
      rw [remove_node_in_degree_some g n inner hoe,
        dictGetD_erase_ne _ n v 0 hv, dictGetD_foldl_decr, hvk]
      simp
  · intro u hu hedge
    unfold outDegOf
    cases hoe : dictGet? g.out_edges n with
    | none =>
      rw [remove_node_out_degree_none g n hoe, dictGetD_erase_ne _ n u 0 hu,
        removeInEdges_deg, count_sources_with_edge n g.out_edges hndO u]
      unfold edgeMem at hedge
      simp [hedge]
    | some inner =>
      have hnd' : (dictKeys (dictErase g.out_edges n)).Nodup :=
        (dictErase_keys_sublist g.out_edges n).nodup hndO
      have hgd : dictGetD (dictErase g.out_edges n) u [] = dictGetD g.out_edges u [] :=
        dictGetD_erase_ne _ n u [] hu
      have hedge' : dictMem (dictGetD (dictErase g.out_edges n) u []) n := by
        unfold edgeMem at hedge
        rwa [hgd]
      rw [remove_node_out_degree_some g n inner hoe, dictGetD_erase_ne _ n u 0 hu,
        removeInEdges_deg, count_sources_with_edge n _ hnd' u]
      simp [hedge']
  · intro u hu hnedge
    unfold outDegOf
    cases hoe : dictGet? g.out_edges n with
    | none =>
      rw [remove_node_out_degree_none g n hoe, dictGetD_erase_ne _ n u 0 hu,
        removeInEdges_deg, count_sources_with_edge n g.out_edges hndO u]
      unfold edgeMem at hnedge
      simp [hnedge]
    | some inner =>
      have hnd' : (dictKeys (dictErase g.out_edges n)).Nodup :=
        (dictErase_keys_sublist g.out_edges n).nodup hndO
      have hgd : dictGetD (dictErase g.out_edges n) u [] = dictGetD g.out_edges u [] :=
        dictGetD_erase_ne _ n u [] hu
      have hnedge' : ¬ dictMem (dictGetD (dictErase g.out_edges n) u []) n := by
        unfold edgeMem at hnedge
        rwa [hgd]
      rw [remove_node_out_degree_some g n inner hoe, dictGetD_erase_ne _ n u 0 hu,
        removeInEdges_deg, count_sources_with_edge n _ hnd' u]
      simp [hnedge']
  · rintro ⟨hns, hin, hout, hoe, hinner⟩
    unfold remove_node
    rw [dictGet?_eq_none_of_not_mem g.out_edges n hoe]
    simp only
    rw [removeInEdges_id n g.out_edges g.out_degree hinner]
    simp only
    rw [dictErase_of_not_mem _ _ hout, dictErase_of_not_mem _ _ hin]
    rw [show g.nodes.filter (fun x => x ≠ n) = g.nodes from by
      refine List.filter_eq_self.mpr ?_
      intro x hx
      have : x ≠ n := fun hc => hns (hc ▸ hx)
      simpa using this]

/-- Witness for C2: removing `"AC"` from the two-edge graph
`AC -> CG -> GT` decrements `CG`'s in-degree. -/
theorem c2_witness :
    inDegOf (remove_node (add_edge (add_edge (emptyGraph 3) "AC" "CG" 2) "CG" "GT" 3) "AC") "CG"
      = inDegOf (add_edge (add_edge (emptyGraph 3) "AC" "CG" 2) "CG" "GT" 3) "CG" - 1 :=
  (c2_remove_node_spec (add_edge (add_edge (emptyGraph 3) "AC" "CG" 2) "CG" "GT" 3)
    "AC" (by decide)).2.2.2.2.2.1 "CG" (by decide) (by decide)

/-! ### C9: N50 -/

theorem length_insertDesc (x : Nat) (l : List Nat) :
    (insertDesc x l).length = l.length + 1 := by
  induction l with
  | nil => rfl
  | cons y t ih =>
    unfold insertDesc
    by_cases h : y ≤ x
    · simp [h]
    · simp [h, ih]

theorem length_sortDesc (l : List Nat) : (sortDesc l).length = l.length := by
  induction l with
  | nil => rfl
  | cons x t ih =>
    unfold sortDesc at ih ⊢
    rw [List.foldr_cons, length_insertDesc, ih]
    simp

theorem n50Go_spec (total : Nat) (l : List Nat) (cs : Nat)
    (hex : ∃ i, i < l.length ∧ total ≤ 2 * (cs + (l.take (i + 1)).sum)) :
    ∃ i, i < l.length ∧ n50Go total l cs = l.getD i 0 ∧
      total ≤ 2 * (cs + (l.take (i + 1)).sum) ∧
      ∀ j, j < i → 2 * (cs + (l.take (j + 1)).sum) < total := by
  induction l generalizing cs with
  | nil =>
    obtain ⟨i, hi, _⟩ := hex
    simp at hi
  | cons a rest ih =>
    by_cases h : total ≤ 2 * (cs + a)
    · refine ⟨0, by simp, ?_, ?_, ?_⟩
      · unfold n50Go
        simp [h]
      · simpa using h
      · intro j hj
        omega
    · have hex' : ∃ i, i < rest.length ∧ total ≤ 2 * ((cs + a) + (rest.take (i + 1)).sum) := by
        obtain ⟨i, hi, hsum⟩ := hex
        match i with
        | 0 =>
          exfalso
          apply h
          simpa using hsum
        | i' + 1 =>
          refine ⟨i', by simpa using hi, ?_⟩
          have : ((a :: rest).take (i' + 2)).sum = a + (rest.take (i' + 1)).sum := by
            simp [List.take_succ_cons]
          rw [this] at hsum
          omega
      obtain ⟨i', hi', heq, hge, hlt⟩ := ih (cs + a) hex'
      refine ⟨i' + 1, by simpa using hi', ?_, ?_, ?_⟩
      · unfold n50Go
        simp [h, heq]
      · have : ((a :: rest).take (i' + 2)).sum = a + (rest.take (i' + 1)).sum := by
          simp [List.take_succ_cons]
        rw [this]
        omega
      · intro j hj
        match j with
        | 0 =>
          simp only [List.take_succ_cons, List.take_zero, List.sum_cons, List.sum_nil]
          omega
        | j' + 1 =>
          have hj' : j' < i' := by omega
          have := hlt j' hj'
          have hts : ((a :: rest).take (j' + 2)).sum = a + (rest.take (j' + 1)).sum := by
            simp [List.take_succ_cons]
          rw [hts]
          omega

/-- The concrete contig set of the N50 law: lengths 500, 300, 100, 100. -/
def c9Contigs : List String :=
  [String.mk (List.replicate 500 'A'), String.mk (List.replicate 300 'C'),
   String.mk (List.replicate 100 'G'), String.mk (List.replicate 100 'T')]

set_option maxRecDepth 10000 in
/-- C9: for a non-empty contig set, `n50` is the length at which the
descending scan of contig lengths first accumulates at least half the
total length (the float `cumsum >= total / 2` is the exact
`total <= 2 * cumsum`); in particular for lengths `[500, 300, 100, 100]`
the N50 is 500. -/
theorem c9_n50_characterisation :
    (∀ contigs : List String, contigs ≠ [] →
      ∃ i, i < (sortDesc (contigs.map (·.length))).length ∧
        (contig_stats contigs).n50 = (sortDesc (contigs.map (·.length))).getD i 0 ∧
        (sortDesc (contigs.map (·.length))).sum
          ≤ 2 * ((sortDesc (contigs.map (·.length))).take (i + 1)).sum ∧
        (∀ j, j < i →
          2 * ((sortDesc (contigs.map (·.length))).take (j + 1)).sum
            < (sortDesc (contigs.map (·.length))).sum)) ∧
    (contig_stats c9Contigs).n50 = 500 := by
  constructor
  · intro contigs hne
    have hn50 : (contig_stats contigs).n50
        = n50Go (sortDesc (contigs.map (·.length))).sum
            (sortDesc (contigs.map (·.length))) 0 := by
      unfold contig_stats
      simp [hne]
    have hlenpos : 0 < (sortDesc (contigs.map (·.length))).length := by
      rw [length_sortDesc, List.length_map]
      exact List.length_pos.mpr hne
    have hex : ∃ i, i < (sortDesc (contigs.map (·.length))).length ∧
        (sortDesc (contigs.map (·.length))).sum
          ≤ 2 * (0 + ((sortDesc (contigs.map (·.length))).take (i + 1)).sum) := by
      refine ⟨(sortDesc (contigs.map (·.length))).length - 1, by omega, ?_⟩
      have : (sortDesc (contigs.map (·.length))).length - 1 + 1
          = (sortDesc (contigs.map (·.length))).length := by omega
      rw [this, List.take_length]
      omega
    obtain ⟨i, hi, heq, hge, hlt⟩ := n50Go_spec _ _ 0 hex
    refine ⟨i, hi, ?_, ?_, ?_⟩
    · rw [hn50, heq]
    · simpa using hge
    · intro j hj
      have := hlt j hj
      simpa using this
  · rfl

/-- Witness for C9: the characterisation applied to the concrete contig
set of lengths 500, 300, 100, 100. -/
theorem c9_witness :
    ∃ i, i < (sortDesc (c9Contigs.map (·.length))).length ∧
      (contig_stats c9Contigs).n50 = (sortDesc (c9Contigs.map (·.length))).getD i 0 ∧
      (sortDesc (c9Contigs.map (·.length))).sum
        ≤ 2 * ((sortDesc (c9Contigs.map (·.length))).take (i + 1)).sum ∧
      (∀ j, j < i →
        2 * ((sortDesc (c9Contigs.map (·.length))).take (j + 1)).sum
          < (sortDesc (c9Contigs.map (·.length))).sum) :=
  c9_n50_characterisation.1 c9Contigs (by simp [c9Contigs])

/-! ### C5: coverage-cutoff valley estimation -/

/-- Position `i` of the candidate list is a valley: its histogram count is
strictly below both adjacent candidates' counts. -/
def valleyAt (ws : List Int) (cs : List Int) (i : Nat) : Prop :=
  histCount ws (cs.getD i 0) < histCount ws (cs.getD (i - 1) 0) ∧
  histCount ws (cs.getD i 0) < histCount ws (cs.getD (i + 1) 0)

instance (ws cs : List Int) (i : Nat) : Decidable (valleyAt ws cs i) := by
  unfold valleyAt; infer_instance

theorem valleyScan_first (ws : List Int) :
    ∀ (cs : List Int) (i : Nat), 0 < i → i + 1 < cs.length → valleyAt ws cs i →
      (∀ j, 0 < j → j < i → ¬ valleyAt ws cs j) →
      valleyScan ws cs = some (cs.getD i 0) := by
  intro cs
  induction cs with
  | nil => intro i h1 h2; simp at h2
  | cons a cs' ih =>
    match cs' with
    | [] => intro i h1 h2 _ _; simp at h2
    | [b] => intro i h1 h2 _ _; simp at h2; omega
    | b :: c :: t =>
      intro i h1 h2 hv hmin
      match i with
      | 1 =>
        have hcond : histCount ws b < histCount ws a ∧ histCount ws b < histCount ws c := by
          simpa [valleyAt] using hv
        unfold valleyScan
        simp [hcond]
      | i' + 2 =>
        have hnot1 : ¬ valleyAt ws (a :: b :: c :: t) 1 := hmin 1 (by omega) (by omega)
        have hcond : ¬ (histCount ws b < histCount ws a ∧ histCount ws b < histCount ws c) := by
          simpa [valleyAt] using hnot1
        unfold valleyScan
        simp only [hcond, if_false]
        have hv' : valleyAt ws (b :: c :: t) (i' + 1) := by
          unfold valleyAt at hv ⊢
          simpa using hv
        have hmin' : ∀ j, 0 < j → j < i' + 1 → ¬ valleyAt ws (b :: c :: t) j := by
          intro j hj hji hvj
          apply hmin (j + 1) (by omega) (by omega)
          unfold valleyAt at hvj ⊢
          match j, hj with
          | j'' + 1, _ => simpa using hvj
        have := ih (i' + 1) (by omega) (by simpa using h2) hv' hmin'
        rw [this]
        simp

theorem valleyScan_none (ws : List Int) :
    ∀ (cs : List Int), (∀ i, 0 < i → i + 1 < cs.length → ¬ valleyAt ws cs i) →
      valleyScan ws cs = none := by
  intro cs
  induction cs with
  | nil => intro _; rfl
  | cons a cs' ih =>
    match cs' with
    | [] => intro _; rfl
    | [b] => intro _; rfl
    | b :: c :: t =>
      intro hmin
      have hnot1 : ¬ valleyAt ws (a :: b :: c :: t) 1 := hmin 1 (by omega) (by simp)
      have hcond : ¬ (histCount ws b < histCount ws a ∧ histCount ws b < histCount ws c) := by
        simpa [valleyAt] using hnot1
      unfold valleyScan
      simp only [hcond, if_false]
      apply ih
      intro i hi hilen hvi
      apply hmin (i + 1) (by omega) (by simpa using hilen)
      unfold valleyAt at hvi ⊢
      match i, hi with
      | i'' + 1, _ => simpa using hvi

set_option maxRecDepth 4000 in
/-- C5: the coverage-cutoff estimate is `w + 1` for `w` the first valley of
the candidate list (distinct weights in `1..15`, ascending, a valley being
a candidate whose histogram count is strictly below both neighbouring
candidates' counts); with fewer than three candidates the estimate is 2;
with no valley the singleton-fraction fallback decides. -/
theorem c5_estimate_cutoff_valley (g : DeBruijnGraph) :
    ((valleyCandidates (get_all_edge_weights g) 15).length < 3 →
      estimate_coverage_cutoff_valley g 15 = 2) ∧
    (∀ i, 0 < i → i + 1 < (valleyCandidates (get_all_edge_weights g) 15).length →
      valleyAt (get_all_edge_weights g) (valleyCandidates (get_all_edge_weights g) 15) i →
      (∀ j, 0 < j → j < i →
        ¬ valleyAt (get_all_edge_weights g) (valleyCandidates (get_all_edge_weights g) 15) j) →
      estimate_coverage_cutoff_valley g 15
        = (valleyCandidates (get_all_edge_weights g) 15).getD i 0 + 1) ∧
    (3 ≤ (valleyCandidates (get_all_edge_weights g) 15).length →
      (∀ i, 0 < i → i + 1 < (valleyCandidates (get_all_edge_weights g) 15).length →
        ¬ valleyAt (get_all_edge_weights g) (valleyCandidates (get_all_edge_weights g) 15) i) →
      estimate_coverage_cutoff_valley g 15 = fallbackCutoff g) := by
  refine ⟨?_, ?_, ?_⟩
  · intro hlen
    by_cases hws : get_all_edge_weights g = []
    · unfold estimate_coverage_cutoff_valley
      simp [hws]
    · unfold estimate_coverage_cutoff_valley
      simp [hws, hlen]
  · intro i hi hlen2 hv hmin
    have hws : get_all_edge_weights g ≠ [] := by
      intro hws0
      rw [hws0] at hlen2
      have hempty : valleyCandidates [] 15 = [] := rfl
      rw [hempty] at hlen2
      simp at hlen2
    have hlen3 : ¬ ((valleyCandidates (get_all_edge_weights g) 15).length < 3) := by
      omega
    have hscan := valleyScan_first (get_all_edge_weights g)
      (valleyCandidates (get_all_edge_weights g) 15) i hi hlen2 hv hmin
    unfold estimate_coverage_cutoff_valley
    simp [hws, hlen3, hscan]
  · intro hlen hnone
    have hws : get_all_edge_weights g ≠ [] := by
      intro hws0
      rw [hws0] at hlen
      have hempty : valleyCandidates [] 15 = [] := rfl
      rw [hempty] at hlen
      simp at hlen
    have hlen3 : ¬ ((valleyCandidates (get_all_edge_weights g) 15).length < 3) := by
      omega
    have hscan := valleyScan_none (get_all_edge_weights g)
      (valleyCandidates (get_all_edge_weights g) 15) hnone
    unfold estimate_coverage_cutoff_valley
    simp [hws, hlen3, hscan]

/-- A graph with nine disjoint edges of weights 1,1,1,1,1,2,3,3,3: the
weight histogram has a valley at weight 2. -/
def c5Graph : DeBruijnGraph :=
  [("A", "B", (1 : Int)), ("C", "D", 1), ("E", "F", 1), ("G", "H", 1),
   ("I", "J", 1), ("K", "L", 2), ("M", "N", 3), ("O", "P", 3),
   ("Q", "R", 3)].foldl (fun g e => add_edge g e.1 e.2.1 e.2.2) (emptyGraph 3)

set_option maxRecDepth 4000 in
/-- Witness for C5: on `c5Graph` the candidates are `[1, 2, 3]` with counts
`5, 1, 3`; the valley is at weight 2 and the estimate is 3. -/
theorem c5_witness : estimate_coverage_cutoff_valley c5Graph 15 = 3 := by
  have h := (c5_estimate_cutoff_valley c5Graph).2.1 1 (by decide) (by decide)
    (by decide) (by intro j h1 h2; omega)
  exact h.trans (by decide)

/-! ### C8: convergence of `remove_tips` -/

/-- `M -> P` with branches `P -> S` (weight 1), `P -> Q` (weight 100) and a
return cycle `M -> R -> M`: one scan removes the sink tips `S` and `Q`,
which turns `P` into a fresh sink tip. -/
def c8Graph : DeBruijnGraph :=
  add_edge (add_edge (add_edge (add_edge (add_edge (emptyGraph 3)
    "M" "P" 100) "P" "S" 1) "P" "Q" 100) "M" "R" 100) "R" "M" 100

/-- C8, counterexample: with `max_iterations = 1` the single pass of
`remove_tips` ends with removals still pending, and re-running it with the
same parameters removes the newly exposed tip `P` — the output changes. -/
theorem c8_counterexample :
    node_exists (remove_tips c8Graph 2 (mkRat 1 10) 1) "P" ∧
    ¬ node_exists (remove_tips (remove_tips c8Graph 2 (mkRat 1 10) 1) 2 (mkRat 1 10) 1) "P" ∧
    remove_tips (remove_tips c8Graph 2 (mkRat 1 10) 1) 2 (mkRat 1 10) 1
      ≠ remove_tips c8Graph 2 (mkRat 1 10) 1 := by
  decide

theorem removeTipsLoop_fix (tml : Nat) (rmin : ℚ) (it : Nat)
    (g : DeBruijnGraph) (h : tipScan g tml rmin = []) :
    removeTipsLoop tml rmin it g = g := by
  cases it with
  | zero => rfl
  | succ n =>
    unfold removeTipsLoop
    rw [h]
    simp

/-- C8 (amended): `remove_tips` is convergent whenever its run actually
reaches the fixpoint — if the tip scan of its output collects nothing
(which is exactly how the loop terminates before exhausting
`max_iterations`), then re-running `remove_tips` with the same parameters
changes nothing.  Convergence can fail only when `max_iterations` is
exhausted with removals still pending. -/
theorem c8_amended_remove_tips_fixpoint (g : DeBruijnGraph) (tml : Nat)
    (rmin : ℚ) (mi : Nat)
    (hfix : tipScan (remove_tips g tml rmin mi) tml rmin = []) :
    remove_tips (remove_tips g tml rmin mi) tml rmin mi
      = remove_tips g tml rmin mi :=
  removeTipsLoop_fix tml rmin mi (remove_tips g tml rmin mi) hfix

/-- A pure 3-cycle: no tips at all. -/
def c8CycleGraph : DeBruijnGraph :=
  add_edge (add_edge (add_edge (emptyGraph 3) "A" "B" 1) "B" "C" 1) "C" "A" 1

/-- Witness for the amended C8 theorem: on the 3-cycle the scan of the
output is empty and the re-run is the identity. -/
theorem c8_amended_witness :
    remove_tips (remove_tips c8CycleGraph 2 (mkRat 1 10) 5) 2 (mkRat 1 10) 5
      = remove_tips c8CycleGraph 2 (mkRat 1 10) 5 :=
  c8_amended_remove_tips_fixpoint c8CycleGraph 2 (mkRat 1 10) 5 (by decide)

/-! ### C6: Tour Bus tie-break -/

theorem dictMem_erase_mono {β : Type} (d : Dict β) (k b : String)
    (h : dictMem (dictErase d k) b) : dictMem d b := by
  rw [dictMem_iff_mem_keys] at h ⊢
  exact (dictErase_keys_sublist d k).subset h

theorem dictGet?_eq_none_of_erase_nil {β : Type} (d : Dict β) (k b : String)
    (he : dictErase d k = []) (hb : b ≠ k) : dictGet? d b = none := by
  induction d with
  | nil => rfl
  | cons p t ih =>
    obtain ⟨a, c⟩ := p
    unfold dictErase at he
    rw [List.filter_cons] at he
    by_cases hak : a = k
    · simp only [hak] at he
      simp at he
      have hab : a ≠ b := fun hc => hb (hc ▸ hak)
      rw [show dictGet? ((a, c) :: t) b = dictGet? t b from by simp [dictGet?, hab]]
      exact ih (by simpa [dictErase] using he)
    · simp [hak] at he

theorem remove_edge_shape_none (g : DeBruijnGraph) (u v : String)
    (hoe : dictGet? g.out_edges u = none) : remove_edge g u v = g := by
  unfold remove_edge
  rw [hoe]

theorem remove_edge_shape_notmem (g : DeBruijnGraph) (u v : String)
    (inner : Dict Int) (hoe : dictGet? g.out_edges u = some inner)
    (hv : ¬ dictMem inner v) : remove_edge g u v = g := by
  unfold remove_edge
  simp only [hoe]
  rw [if_neg hv]

theorem remove_edge_shape_mem_empty (g : DeBruijnGraph) (u v : String)
    (inner : Dict Int) (hoe : dictGet? g.out_edges u = some inner)
    (hv : dictMem inner v) (he : dictErase inner v = []) :
    remove_edge g u v
      = { g with
          out_edges := dictErase (dictInsert g.out_edges u []) u
          out_degree := degIncr g.out_degree u (-1)
          in_degree := degIncr g.in_degree v (-1) } := by
  unfold remove_edge
  simp only [hoe]
  rw [if_pos hv]
  simp [he]

theorem remove_edge_shape_mem_ne (g : DeBruijnGraph) (u v : String)
    (inner : Dict Int) (hoe : dictGet? g.out_edges u = some inner)
    (hv : dictMem inner v) (he : ¬ dictErase inner v = []) :
    remove_edge g u v
      = { g with
          out_edges := dictInsert g.out_edges u (dictErase inner v)
          out_degree := degIncr g.out_degree u (-1)
          in_degree := degIncr g.in_degree v (-1) } := by
  unfold remove_edge
  simp only [hoe]
  rw [if_pos hv]
  simp [he]

theorem dictGet?_erase_self {β : Type} (d : Dict β) (k : String) :
    dictGet? (dictErase d k) k = none :=
  dictGet?_eq_none_of_not_mem _ _ (dictMem_erase_self d k)

theorem remove_edge_not_self (g : DeBruijnGraph) (u v : String) :
    ¬ edgeMem (remove_edge g u v) u v := by
  cases hoe : dictGet? g.out_edges u with
  | none =>
    rw [remove_edge_shape_none g u v hoe]
    unfold edgeMem
    intro hmem
    rw [show dictGetD g.out_edges u [] = [] from by simp [dictGetD, hoe]] at hmem
    simp [dictMem, dictGet?] at hmem
  | some inner =>
    by_cases hv : dictMem inner v
    · by_cases he : dictErase inner v = []
      · rw [remove_edge_shape_mem_empty g u v inner hoe hv he]
        unfold edgeMem
        intro hmem
        rw [show dictGetD (dictErase (dictInsert g.out_edges u ([] : Dict Int)) u) u ([] : Dict Int) = [] from by
          unfold dictGetD
          rw [dictGet?_erase_self]
          rfl] at hmem
        simp [dictMem, dictGet?] at hmem
      · rw [remove_edge_shape_mem_ne g u v inner hoe hv he]
        unfold edgeMem
        intro hmem
        rw [show dictGetD (dictInsert g.out_edges u (dictErase inner v)) u ([] : Dict Int)
            = dictErase inner v from by simp [dictGetD, dictGet?_insert_self]] at hmem
        exact dictMem_erase_self inner v hmem
    · rw [remove_edge_shape_notmem g u v inner hoe hv]
      unfold edgeMem
      intro hmem
      rw [show dictGetD g.out_edges u [] = inner from by simp [dictGetD, hoe]] at hmem
      exact hv hmem

theorem remove_edge_get?_same_src (g : DeBruijnGraph) (u v v' : String)
    (hv : v' ≠ v) :
    dictGet? (dictGetD (remove_edge g u v).out_edges u []) v'
      = dictGet? (dictGetD g.out_edges u []) v' := by
  cases hoe : dictGet? g.out_edges u with
  | none => rw [remove_edge_shape_none g u v hoe]
  | some inner =>
    have hrhs : dictGetD g.out_edges u ([] : Dict Int) = inner := by
      simp [dictGetD, hoe]
    by_cases hvm : dictMem inner v
    · by_cases he : dictErase inner v = []
      · rw [remove_edge_shape_mem_empty g u v inner hoe hvm he]
        rw [show dictGetD ({ g with
              out_edges := dictErase (dictInsert g.out_edges u []) u
              out_degree := degIncr g.out_degree u (-1)
              in_degree := degIncr g.in_degree v (-1) } : DeBruijnGraph).out_edges u ([] : Dict Int)
            = [] from by
          unfold dictGetD
          rw [dictGet?_erase_self]
          rfl]
        rw [hrhs, dictGet?_eq_none_of_erase_nil inner v v' he hv]
        rfl
      · rw [remove_edge_shape_mem_ne g u v inner hoe hvm he]
        rw [show dictGetD ({ g with
              out_edges := dictInsert g.out_edges u (dictErase inner v)
              out_degree := degIncr g.out_degree u (-1)
              in_degree := degIncr g.in_degree v (-1) } : DeBruijnGraph).out_edges u ([] : Dict Int)
            = dictErase inner v from by simp [dictGetD, dictGet?_insert_self]]
        rw [hrhs]
        exact dictGet?_erase_ne inner v v' hv
    · rw [remove_edge_shape_notmem g u v inner hoe hvm]

theorem remove_edge_keys_nodup (g : DeBruijnGraph) (u v : String)
    (hnd : (dictKeys g.out_edges).Nodup) :
    (dictKeys (remove_edge g u v).out_edges).Nodup := by
  cases hoe : dictGet? g.out_edges u with
  | none => rw [remove_edge_shape_none g u v hoe]; exact hnd
  | some inner =>
    have hmemu : dictMem g.out_edges u := by simp [dictMem, hoe]
    by_cases hvm : dictMem inner v
    · by_cases he : dictErase inner v = []
      · rw [remove_edge_shape_mem_empty g u v inner hoe hvm he]
        have hkeys : dictKeys (dictInsert g.out_edges u ([] : Dict Int))
            = dictKeys g.out_edges := dictKeys_insert_of_mem _ _ _ hmemu
        exact (dictErase_keys_sublist _ u).nodup (hkeys ▸ hnd)
      · rw [remove_edge_shape_mem_ne g u v inner hoe hvm he]
        have hkeys : dictKeys (dictInsert g.out_edges u (dictErase inner v))
            = dictKeys g.out_edges := dictKeys_insert_of_mem _ _ _ hmemu
        exact hkeys ▸ hnd
    · rw [remove_edge_shape_notmem g u v inner hoe hvm]
      exact hnd

theorem removeInEdges_edge_mono (n : String) (l : List (String × Dict Int))
    (od : Dict Int) (a b : String) (hnd : (dictKeys l).Nodup)
    (h : dictMem (dictGetD (removeInEdges n l od).1 a []) b) :
    dictMem (dictGetD l a []) b := by
  induction l generalizing od with
  | nil => simpa [removeInEdges] using h
  | cons p rest ih =>
    obtain ⟨u, inner⟩ := p
    have hnd' : (dictKeys rest).Nodup := (List.nodup_cons.mp hnd).2
    have hnu : u ∉ dictKeys rest := (List.nodup_cons.mp hnd).1
    by_cases hm : dictMem inner n
    · rw [show (removeInEdges n ((u, inner) :: rest) od).1
          = (if dictErase inner n = [] then (removeInEdges n rest (degIncr od u (-1))).1
             else (u, dictErase inner n) :: (removeInEdges n rest (degIncr od u (-1))).1) from by
        simp only [removeInEdges, hm, if_true]] at h
      by_cases he : dictErase inner n = []
      · rw [if_pos he] at h
        by_cases ha : a = u
        · exfalso
          subst ha
          have hsub := removeInEdges_keys_sublist n rest (degIncr od a (-1))
          have hnot : a ∉ dictKeys (removeInEdges n rest (degIncr od a (-1))).1 :=
            fun hc => hnu (hsub.subset hc)
          rw [show dictGetD (removeInEdges n rest (degIncr od a (-1))).1 a ([] : Dict Int) = [] from by
            unfold dictGetD
            rw [dictGet?_eq_none_of_not_mem _ _ (fun hm2 => hnot ((dictMem_iff_mem_keys _ _).mp hm2))]
            rfl] at h
          simp [dictMem, dictGet?] at h
        · have hau : ¬ u = a := fun hc => ha hc.symm
          rw [show dictGetD ((u, inner) :: rest) a ([] : Dict Int) = dictGetD rest a [] from by
            simp [dictGetD, dictGet?, hau]]
          exact ih _ hnd' h
      · rw [if_neg he] at h
        by_cases ha : a = u
        · subst ha
          rw [show dictGetD ((a, dictErase inner n) :: (removeInEdges n rest (degIncr od a (-1))).1) a ([] : Dict Int)
              = dictErase inner n from by simp [dictGetD, dictGet?]] at h
          rw [show dictGetD ((a, inner) :: rest) a ([] : Dict Int) = inner from by
            simp [dictGetD, dictGet?]]
          exact dictMem_erase_mono inner n b h
        · have hau : ¬ u = a := fun hc => ha hc.symm
          rw [show dictGetD ((u, dictErase inner n) :: (removeInEdges n rest (degIncr od u (-1))).1) a ([] : Dict Int)
              = dictGetD (removeInEdges n rest (degIncr od u (-1))).1 a [] from by
            simp [dictGetD, dictGet?, hau]] at h
          rw [show dictGetD ((u, inner) :: rest) a ([] : Dict Int) = dictGetD rest a [] from by
            simp [dictGetD, dictGet?, hau]]
          exact ih _ hnd' h
    · rw [show (removeInEdges n ((u, inner) :: rest) od).1
          = (u, inner) :: (removeInEdges n rest od).1 from by
        simp only [removeInEdges, hm, if_false]] at h
      by_cases ha : a = u
      · subst ha
        rw [show dictGetD ((a, inner) :: (removeInEdges n rest od).1) a ([] : Dict Int) = inner from by
          simp [dictGetD, dictGet?]] at h
        rw [show dictGetD ((a, inner) :: rest) a ([] : Dict Int) = inner from by
          simp [dictGetD, dictGet?]]
        exact h
      · have hau : ¬ u = a := fun hc => ha hc.symm
        rw [show dictGetD ((u, inner) :: (removeInEdges n rest od).1) a ([] : Dict Int)
            = dictGetD (removeInEdges n rest od).1 a [] from by
          simp [dictGetD, dictGet?, hau]] at h
        rw [show dictGetD ((u, inner) :: rest) a ([] : Dict Int) = dictGetD rest a [] from by
          simp [dictGetD, dictGet?, hau]]
        exact ih _ hnd' h

theorem remove_node_edge_mono (g : DeBruijnGraph) (x a b : String)
    (hnd : (dictKeys g.out_edges).Nodup)
    (h : edgeMem (remove_node g x) a b) : edgeMem g a b := by
  unfold edgeMem at h ⊢
  cases hoe : dictGet? g.out_edges x with
  | none =>
    rw [remove_node_out_edges_none g x hoe] at h
    exact removeInEdges_edge_mono x g.out_edges g.out_degree a b hnd h
  | some inner =>
    rw [remove_node_out_edges_some g x inner hoe] at h
    have hnd' : (dictKeys (dictErase g.out_edges x)).Nodup :=
      (dictErase_keys_sublist g.out_edges x).nodup hnd
    have h2 := removeInEdges_edge_mono x _ g.out_degree a b hnd' h
    by_cases hax : a = x
    · exfalso
      subst hax
      rw [show dictGetD (dictErase g.out_edges a) a ([] : Dict Int) = [] from by
        unfold dictGetD
        rw [dictGet?_erase_self]
        rfl] at h2
      simp [dictMem, dictGet?] at h2
    · rwa [dictGetD_erase_ne _ x a [] hax] at h2

theorem removeInEdges_get?_pres (n : String) (l : List (String × Dict Int))
    (od : Dict Int) (a b : String) (hnd : (dictKeys l).Nodup) (hb : b ≠ n) :
    dictGet? (dictGetD (removeInEdges n l od).1 a []) b
      = dictGet? (dictGetD l a []) b := by
  induction l generalizing od with
  | nil => rfl
  | cons p rest ih =>
    obtain ⟨u, inner⟩ := p
    have hnd' : (dictKeys rest).Nodup := (List.nodup_cons.mp hnd).2
    have hnu : u ∉ dictKeys rest := (List.nodup_cons.mp hnd).1
    by_cases hm : dictMem inner n
    · rw [show (removeInEdges n ((u, inner) :: rest) od).1
          = (if dictErase inner n = [] then (removeInEdges n rest (degIncr od u (-1))).1
             else (u, dictErase inner n) :: (removeInEdges n rest (degIncr od u (-1))).1) from by
        simp only [removeInEdges, hm, if_true]]
      by_cases he : dictErase inner n = []
      · rw [if_pos he]
        by_cases ha : a = u
        · subst ha
          have hsub := removeInEdges_keys_sublist n rest (degIncr od a (-1))
          have hnot : a ∉ dictKeys (removeInEdges n rest (degIncr od a (-1))).1 :=
            fun hc => hnu (hsub.subset hc)
          rw [show dictGetD (removeInEdges n rest (degIncr od a (-1))).1 a ([] : Dict Int) = [] from by
            unfold dictGetD
            rw [dictGet?_eq_none_of_not_mem _ _ (fun hm2 => hnot ((dictMem_iff_mem_keys _ _).mp hm2))]
            rfl]
          rw [show dictGetD ((a, inner) :: rest) a ([] : Dict Int) = inner from by
            simp [dictGetD, dictGet?]]
          rw [dictGet?_eq_none_of_erase_nil inner n b he hb]
          rfl
        · have hau : ¬ u = a := fun hc => ha hc.symm
          rw [show dictGetD ((u, inner) :: rest) a ([] : Dict Int) = dictGetD rest a [] from by
            simp [dictGetD, dictGet?, hau]]
          exact ih _ hnd'
      · rw [if_neg he]
        by_cases ha : a = u
        · subst ha
          rw [show dictGetD ((a, dictErase inner n) :: (removeInEdges n rest (degIncr od a (-1))).1) a ([] : Dict Int)
              = dictErase inner n from by simp [dictGetD, dictGet?]]
          rw [show dictGetD ((a, inner) :: rest) a ([] : Dict Int) = inner from by
            simp [dictGetD, dictGet?]]
          exact dictGet?_erase_ne inner n b hb
        · have hau : ¬ u = a := fun hc => ha hc.symm
          rw [show dictGetD ((u, dictErase inner n) :: (removeInEdges n rest (degIncr od u (-1))).1) a ([] : Dict Int)
              = dictGetD (removeInEdges n rest (degIncr od u (-1))).1 a [] from by
            simp [dictGetD, dictGet?, hau]]
          rw [show dictGetD ((u, inner) :: rest) a ([] : Dict Int) = dictGetD rest a [] from by
            simp [dictGetD, dictGet?, hau]]
          exact ih _ hnd'
    · rw [show (removeInEdges n ((u, inner) :: rest) od).1
          = (u, inner) :: (removeInEdges n rest od).1 from by
        simp only [removeInEdges, hm, if_false]]
      by_cases ha : a = u
      · subst ha
        rw [show dictGetD ((a, inner) :: (removeInEdges n rest od).1) a ([] : Dict Int) = inner from by
          simp [dictGetD, dictGet?]]
        rw [show dictGetD ((a, inner) :: rest) a ([] : Dict Int) = inner from by
          simp [dictGetD, dictGet?]]
      · have hau : ¬ u = a := fun hc => ha hc.symm
        rw [show dictGetD ((u, inner) :: (removeInEdges n rest od).1) a ([] : Dict Int)
            = dictGetD (removeInEdges n rest od).1 a [] from by
          simp [dictGetD, dictGet?, hau]]
        rw [show dictGetD ((u, inner) :: rest) a ([] : Dict Int) = dictGetD rest a [] from by
          simp [dictGetD, dictGet?, hau]]
        exact ih _ hnd'

theorem remove_node_get?_pres (g : DeBruijnGraph) (x a b : String)
    (hnd : (dictKeys g.out_edges).Nodup) (ha : a ≠ x) (hb : b ≠ x) :
    dictGet? (dictGetD (remove_node g x).out_edges a []) b
      = dictGet? (dictGetD g.out_edges a []) b := by
  cases hoe : dictGet? g.out_edges x with
  | none =>
    rw [remove_node_out_edges_none g x hoe]
    exact removeInEdges_get?_pres x g.out_edges g.out_degree a b hnd hb
  | some inner =>
    rw [remove_node_out_edges_some g x inner hoe]
    have hnd' : (dictKeys (dictErase g.out_edges x)).Nodup :=
      (dictErase_keys_sublist g.out_edges x).nodup hnd
    rw [removeInEdges_get?_pres x _ g.out_degree a b hnd' hb]
    rw [dictGetD_erase_ne _ x a [] ha]

theorem remove_node_keys_nodup (g : DeBruijnGraph) (x : String)
    (hnd : (dictKeys g.out_edges).Nodup) :
    (dictKeys (remove_node g x).out_edges).Nodup := by
  cases hoe : dictGet? g.out_edges x with
  | none =>
    rw [remove_node_out_edges_none g x hoe]
    exact (removeInEdges_keys_sublist x g.out_edges g.out_degree).nodup hnd
  | some inner =>
    rw [remove_node_out_edges_some g x inner hoe]
    exact (removeInEdges_keys_sublist x _ g.out_degree).nodup
      ((dictErase_keys_sublist g.out_edges x).nodup hnd)

theorem bubbleNodeRemove_cases (h : DeBruijnGraph) (x : String) :
    bubbleNodeRemove h x = remove_node h x ∨ bubbleNodeRemove h x = h := by
  unfold bubbleNodeRemove
  by_cases h1 : node_exists h x
  · by_cases h2 : inDegOf h x = 0 ∨ outDegOf h x = 0
    · left; simp [h1, h2]
    · right; simp [h1, h2]
  · right; simp [h1]

theorem foldBubble_keys_nodup (l : List String) (h : DeBruijnGraph)
    (hnd : (dictKeys h.out_edges).Nodup) :
    (dictKeys (l.foldl bubbleNodeRemove h).out_edges).Nodup := by
  induction l generalizing h with
  | nil => exact hnd
  | cons x t ih =>
    rw [List.foldl_cons]
    rcases bubbleNodeRemove_cases h x with hc | hc
    · rw [hc]; exact ih _ (remove_node_keys_nodup h x hnd)
    · rw [hc]; exact ih _ hnd

theorem foldBubble_not_edge (l : List String) (h : DeBruijnGraph) (a b : String)
    (hnd : (dictKeys h.out_edges).Nodup) (habs : ¬ edgeMem h a b) :
    ¬ edgeMem (l.foldl bubbleNodeRemove h) a b := by
  induction l generalizing h with
  | nil => exact habs
  | cons x t ih =>
    rw [List.foldl_cons]
    rcases bubbleNodeRemove_cases h x with hc | hc
    · rw [hc]
      exact ih _ (remove_node_keys_nodup h x hnd)
        (fun h2 => habs (remove_node_edge_mono h x a b hnd h2))
    · rw [hc]; exact ih _ hnd habs

theorem foldBubble_get?_pres (l : List String) (h : DeBruijnGraph) (a b : String)
    (hnd : (dictKeys h.out_edges).Nodup) (ha : a ∉ l) (hb : b ∉ l) :
    dictGet? (dictGetD (l.foldl bubbleNodeRemove h).out_edges a []) b
      = dictGet? (dictGetD h.out_edges a []) b := by
  induction l generalizing h with
  | nil => rfl
  | cons x t ih =>
    have hax : a ≠ x := fun hc => ha (hc ▸ List.mem_cons_self _ _)
    have hbx : b ≠ x := fun hc => hb (hc ▸ List.mem_cons_self _ _)
    have hat : a ∉ t := fun hc => ha (List.mem_cons_of_mem _ hc)
    have hbt : b ∉ t := fun hc => hb (List.mem_cons_of_mem _ hc)
    rw [List.foldl_cons]
    rcases bubbleNodeRemove_cases h x with hc | hc
    · rw [hc]
      rw [ih _ (remove_node_keys_nodup h x hnd) hat hbt]
      exact remove_node_get?_pres h x a b hnd hax hbx
    · rw [hc]
      exact ih _ hnd hat hbt

theorem mem_foldl_nodesAdd (l : List String) (acc : List String) (x : String)
    (h : x ∈ l.foldl nodesAdd acc) : x ∈ acc ∨ x ∈ l := by
  induction l generalizing acc with
  | nil => exact Or.inl h
  | cons a t ih =>
    rw [List.foldl_cons] at h
    rcases ih (nodesAdd acc a) h with h1 | h1
    · unfold nodesAdd at h1
      by_cases hm : a ∈ acc
      · rw [if_pos hm] at h1; exact Or.inl h1
      · rw [if_neg hm] at h1
        rcases List.mem_append.mp h1 with h2 | h2
        · exact Or.inl h2
        · right
          simp at h2
          simp [h2]
    · exact Or.inr (List.mem_cons_of_mem _ h1)

theorem mem_otherPathNodesGo (widx : Nat) (y : String) :
    ∀ (rest : List (List String × Int)) (i0 j : Nat), j < rest.length →
      i0 + j ≠ widx → y ∈ (rest.getD j ([], 0)).1 →
      y ∈ otherPathNodesGo widx i0 rest := by
  intro rest
  induction rest with
  | nil => intro i0 j hj; simp at hj
  | cons p t ih =>
    intro i0 j hj hne hy
    match j with
    | 0 =>
      unfold otherPathNodesGo
      apply List.mem_append.mpr
      left
      have h0 : i0 ≠ widx := by simpa using hne
      rw [if_pos h0]
      simpa using hy
    | j' + 1 =>
      unfold otherPathNodesGo
      apply List.mem_append.mpr
      right
      exact ih (i0 + 1) j' (by simpa using hj) (by omega) (by simpa using hy)

theorem mem_otherPathNodes (paths : List (List String × Int)) (widx : Nat)
    (i : Nat) (y : String) (hi : i < paths.length) (hne : i ≠ widx)
    (hy : y ∈ (paths.getD i ([], 0)).1) : y ∈ otherPathNodes paths widx :=
  mem_otherPathNodesGo widx y paths 0 i hi (by simpa using hne) hy

theorem weakestGo_const (c : Int) :
    ∀ (rest : List (List String × Int)) (i best : Nat),
      (∀ q ∈ rest, q.2 = c) → weakestGo rest i (some c) best = best := by
  intro rest
  induction rest with
  | nil => intro i best _; rfl
  | cons p t ih =>
    intro i best hall
    obtain ⟨pp, cov⟩ := p
    have hc : cov = c := hall (pp, cov) (List.mem_cons_self _ _)
    unfold weakestGo
    rw [hc]
    show (if c < c then weakestGo t (i + 1) (some c) i
      else weakestGo t (i + 1) (some c) best) = best
    rw [if_neg (lt_irrefl c)]
    exact ih (i + 1) best (fun q hq => hall q (List.mem_cons_of_mem _ hq))

theorem weakestIdx_all_eq (paths : List (List String × Int)) (c : Int)
    (hne : paths ≠ []) (hall : ∀ q ∈ paths, q.2 = c) : weakestIdx paths = 0 := by
  match paths, hne with
  | p :: t, _ =>
    obtain ⟨pp, cov⟩ := p
    have hc : cov = c := hall (pp, cov) (List.mem_cons_self _ _)
    unfold weakestIdx weakestGo
    rw [hc]
    exact weakestGo_const c t 1 0 (fun q hq => hall q (List.mem_cons_of_mem _ hq))

theorem remove_weakest_shape (g : DeBruijnGraph)
    (paths : List (List String × Int)) (branch first : String)
    (wrest : List String) (hlen : ¬ (paths.length < 2))
    (hhead : (paths.getD (weakestIdx paths) ([], 0)).1 = first :: wrest) :
    remove_weakest_bubble_path g paths branch
      = ((((first :: wrest).dropLast.foldl nodesAdd []).filter
          (fun x => x ∉ otherPathNodes paths (weakestIdx paths))).foldl
            bubbleNodeRemove (remove_edge g branch first), true) := by
  unfold remove_weakest_bubble_path
  rw [if_neg hlen]
  simp only [hhead]

/-- A tie bubble: `U -> A -> M` and `U -> B -> M`, every edge weight 5, so
both branches accumulate coverage 10. -/
def c6Graph : DeBruijnGraph :=
  add_edge (add_edge (add_edge (add_edge (emptyGraph 3)
    "U" "A" 5) "A" "M" 5) "U" "B" 5) "B" "M" 5

/-- C6, counterexample: on the tie bubble both walked branches accumulate
weight 10, yet `tour_bus` deletes the FIRST-walked branch (`A`: its edge
`U -> A` and node are gone) and keeps the later-walked one (`B`), the
opposite of the claimed tie-break. -/
theorem c6_counterexample :
    find_bubble_paths c6Graph "U" 15 = [(["A", "M"], 10), (["B", "M"], 10)] ∧
    ¬ edgeMem (tour_bus c6Graph 15 10) "U" "A" ∧
    ¬ node_exists (tour_bus c6Graph 15 10) "A" ∧
    edgeMem (tour_bus c6Graph 15 10) "U" "B" ∧
    node_exists (tour_bus c6Graph 15 10) "B" := by
  decide

/-- C6 (amended): when all walked branches of a bubble tie in accumulated
coverage, `remove_weakest_bubble_path` selects index 0 — the FIRST-walked
branch — as the weakest: that branch's first edge is the one deleted,
while the first edge of every later-walked branch keeps its entry (and
weight) unchanged. -/
theorem c6_amended_tie_deletes_first_walked (g : DeBruijnGraph)
    (paths : List (List String × Int)) (branch : String) (c : Int)
    (first : String) (wrest : List String)
    (hnd : (dictKeys g.out_edges).Nodup)
    (hlen : 2 ≤ paths.length)
    (hall : ∀ q ∈ paths, q.2 = c)
    (hhead : (paths.getD 0 ([], 0)).1 = first :: wrest)
    (hbr : branch ∉ (first :: wrest).dropLast) :
    weakestIdx paths = 0 ∧
    (remove_weakest_bubble_path g paths branch).2 = true ∧
    ¬ edgeMem (remove_weakest_bubble_path g paths branch).1 branch first ∧
    (∀ i h t, i < paths.length → i ≠ 0 → (paths.getD i ([], 0)).1 = h :: t →
      h ≠ first →
      dictGet? (dictGetD (remove_weakest_bubble_path g paths branch).1.out_edges branch []) h
        = dictGet? (dictGetD g.out_edges branch []) h) := by
  have hne : paths ≠ [] := by
    intro h0
    rw [h0] at hlen
    simp at hlen
  have hidx : weakestIdx paths = 0 := weakestIdx_all_eq paths c hne hall
  have hhead' : (paths.getD (weakestIdx paths) ([], 0)).1 = first :: wrest := by
    rw [hidx]; exact hhead
  have hshape := remove_weakest_shape g paths branch first wrest (by omega) hhead'
  have hbrn : branch ∉ (((first :: wrest).dropLast.foldl nodesAdd []).filter
      (fun x => x ∉ otherPathNodes paths (weakestIdx paths))) := by
    intro hc
    have h1 := (List.mem_filter.mp hc).1
    rcases mem_foldl_nodesAdd _ _ _ h1 with h2 | h2
    · simp at h2
    · exact hbr h2
  refine ⟨hidx, ?_, ?_, ?_⟩
  · rw [hshape]
  · rw [hshape]
    exact foldBubble_not_edge _ _ branch first
      (remove_edge_keys_nodup g branch first hnd)
      (remove_edge_not_self g branch first)
  · intro i h t hi hne0 hheadi hhf
    have hhn : h ∉ (((first :: wrest).dropLast.foldl nodesAdd []).filter
        (fun x => x ∉ otherPathNodes paths (weakestIdx paths))) := by
      intro hc
      have h2 := (List.mem_filter.mp hc).2
      have h3 : h ∈ otherPathNodes paths (weakestIdx paths) := by
        rw [hidx]
        exact mem_otherPathNodes paths 0 i h hi hne0
          (by rw [hheadi]; exact List.mem_cons_self _ _)
      simp at h2
      exact h2 h3
    rw [hshape]
    rw [foldBubble_get?_pres _ _ branch h
      (remove_edge_keys_nodup g branch first hnd) hbrn hhn]
    exact remove_edge_get?_same_src g branch first h hhf

/-- Witness for the amended C6 theorem: on the concrete tie bubble the
first-walked branch's edge `U -> A` is deleted. -/
theorem c6_amended_witness :
    ¬ edgeMem (remove_weakest_bubble_path c6Graph
      (find_bubble_paths c6Graph "U" 15) "U").1 "U" "A" :=
  (c6_amended_tie_deletes_first_walked c6Graph
    (find_bubble_paths c6Graph "U" 15) "U" 10 "A" ["M"]
    (by decide) (by decide) (by decide) (by decide) (by decide)).2.2.1

/-! ### C7: simple bubble popping -/

/-- Every node that any bookkeeping structure of the graph mentions. -/
def graphDomain (g : DeBruijnGraph) : List String :=
  g.nodes ++ dictKeys g.out_edges ++ (g.out_edges.map (fun p => dictKeys p.2)).flatten
    ++ dictKeys g.in_degree ++ dictKeys g.out_degree

/-- Data-model invariant 2 of the store (decidably phrased over the
graph's domain; it extends to all strings, see `consistent_all`):
`out_degree[n]` is the number of keys of `n`'s outgoing-edge mapping and
`in_degree[n]` the number of nodes whose mapping contains `n`. -/
def ConsistentDeg (g : DeBruijnGraph) : Prop :=
  ∀ n ∈ graphDomain g,
    inDegOf g n = ((get_predecessors g n).length : Int) ∧
    outDegOf g n = ((get_successors g n).length : Int)

instance (g : DeBruijnGraph) : Decidable (ConsistentDeg g) := by
  unfold ConsistentDeg; infer_instance

theorem consistent_all (g : DeBruijnGraph) (hc : ConsistentDeg g) (n : String) :
    inDegOf g n = ((get_predecessors g n).length : Int) ∧
    outDegOf g n = ((get_successors g n).length : Int) := by
  by_cases hn : n ∈ graphDomain g
  · exact hc n hn
  · unfold graphDomain at hn
    simp only [List.mem_append, not_or] at hn
    obtain ⟨⟨⟨⟨hn1, hn2⟩, hn3⟩, hn4⟩, hn5⟩ := hn
    constructor
    · have hin : inDegOf g n = 0 := by
        unfold inDegOf dictGetD
        rw [dictGet?_eq_none_of_not_mem _ _
          (fun hm => hn4 ((dictMem_iff_mem_keys _ _).mp hm))]
        rfl
      have hpreds : get_predecessors g n = [] := by
        unfold get_predecessors
        rw [show g.out_edges.filter (fun p => dictMem p.2 n) = [] from by
          refine List.filter_eq_nil_iff.mpr ?_
          intro p hp
          simp only [decide_eq_true_eq]
          intro hm
          apply hn3
          refine List.mem_flatten.mpr ⟨dictKeys p.2, List.mem_map_of_mem _ hp, ?_⟩
          exact (dictMem_iff_mem_keys _ _).mp hm]
        rfl
      rw [hin, hpreds]
      rfl
    · have hout : outDegOf g n = 0 := by
        unfold outDegOf dictGetD
        rw [dictGet?_eq_none_of_not_mem _ _
          (fun hm => hn5 ((dictMem_iff_mem_keys _ _).mp hm))]
        rfl
      have hsucc : get_successors g n = [] := by
        unfold get_successors dictGetD
        rw [dictGet?_eq_none_of_not_mem _ _
          (fun hm => hn2 ((dictMem_iff_mem_keys _ _).mp hm))]
        rfl
      rw [hout, hsucc]
      rfl

theorem dictGet?_of_mem_nodup {β : Type} (d : Dict β) (k : String) (v : β)
    (hnd : (dictKeys d).Nodup) (h : (k, v) ∈ d) : dictGet? d k = some v := by
  induction d with
  | nil => simp at h
  | cons p t ih =>
    obtain ⟨a, b⟩ := p
    have hnd' : (dictKeys t).Nodup := (List.nodup_cons.mp hnd).2
    have hna : a ∉ dictKeys t := (List.nodup_cons.mp hnd).1
    rcases List.mem_cons.mp h with h1 | h1
    · obtain ⟨hk, hv⟩ := Prod.mk.injEq .. ▸ h1
      · simp [dictGet?, hk.symm, hv]
    · have hak : a ≠ k := by
        intro hc
        apply hna
        rw [hc]
        exact List.mem_map_of_mem (·.1) h1
      simp [dictGet?, hak]
      exact ih hnd' h1

theorem mem_get_predecessors (g : DeBruijnGraph) (a x : String)
    (hnd : (dictKeys g.out_edges).Nodup) :
    a ∈ get_predecessors g x ↔ edgeMem g a x := by
  unfold get_predecessors edgeMem
  constructor
  · intro h
    obtain ⟨p, hp, hpa⟩ := List.mem_map.mp h
    have hpf := List.mem_filter.mp hp
    have hm : dictMem p.2 x := by simpa using hpf.2
    have hget : dictGet? g.out_edges p.1 = some p.2 :=
      dictGet?_of_mem_nodup _ _ _ hnd (by
        have := hpf.1
        simpa using this)
    rw [← hpa]
    unfold dictGetD
    rw [hget]
    exact hm
  · intro h
    cases hoe : dictGet? g.out_edges a with
    | none =>
      exfalso
      unfold dictGetD at h
      rw [hoe] at h
      simp [dictMem, dictGet?] at h
    | some inner =>
      have hinner : dictGetD g.out_edges a [] = inner := by simp [dictGetD, hoe]
      rw [hinner] at h
      have hentry : (a, inner) ∈ g.out_edges := dictGet?_some_mem _ _ _ hoe
      refine List.mem_map.mpr ⟨(a, inner), ?_, rfl⟩
      refine List.mem_filter.mpr ⟨hentry, by simpa using h⟩

theorem mem_get_successors (g : DeBruijnGraph) (a b : String) :
    b ∈ get_successors g a ↔ edgeMem g a b := by
  unfold get_successors edgeMem
  exact (dictMem_iff_mem_keys _ _).symm

theorem walkSimple_stop (g : DeBruijnGraph) (f : Nat) (s : String)
    (h : outDegOf g s ≠ 1 ∨ inDegOf g s ≠ 1) :
    walkSimple g (f + 1) s = ([s], 0) := by
  unfold walkSimple
  rw [if_pos h]

theorem walkSimple_step (g : DeBruijnGraph) (f : Nat) (s nxt : String)
    (rest0 : List String) (h1 : ¬ (outDegOf g s ≠ 1 ∨ inDegOf g s ≠ 1))
    (h2 : get_successors g s = nxt :: rest0) :
    walkSimple g (f + 1) s
      = (s :: (walkSimple g f nxt).1,
         get_edge_weight g s nxt + (walkSimple g f nxt).2) := by
  simp only [walkSimple]
  rw [if_neg h1]
  simp only [h2]

theorem walkSimple_nosucc (g : DeBruijnGraph) (f : Nat) (s : String)
    (h1 : ¬ (outDegOf g s ≠ 1 ∨ inDegOf g s ≠ 1))
    (h2 : get_successors g s = []) :
    walkSimple g (f + 1) s = ([s], 0) := by
  simp only [walkSimple]
  rw [if_neg h1]
  simp only [h2]

theorem walkSimple_head (g : DeBruijnGraph) (f : Nat) (s : String) :
    (walkSimple g f s).1.getD 0 "" = s ∧ (walkSimple g f s).1 ≠ [] := by
  cases f with
  | zero => exact ⟨rfl, by simp [walkSimple]⟩
  | succ f' =>
    by_cases h1 : outDegOf g s ≠ 1 ∨ inDegOf g s ≠ 1
    · rw [walkSimple_stop g f' s h1]
      exact ⟨rfl, by simp⟩
    · cases h2 : get_successors g s with
      | nil =>
        rw [walkSimple_nosucc g f' s h1 h2]
        exact ⟨rfl, by simp⟩
      | cons nxt rest0 =>
        rw [walkSimple_step g f' s nxt rest0 h1 h2]
        exact ⟨rfl, by simp⟩

theorem walkSimple_chain (g : DeBruijnGraph)
    (hout : ∀ n, outDegOf g n = ((get_successors g n).length : Int)) :
    ∀ (f : Nat) (s : String) (i : Nat),
      i + 1 < (walkSimple g f s).1.length →
      outDegOf g ((walkSimple g f s).1.getD i "") = 1 ∧
      inDegOf g ((walkSimple g f s).1.getD i "") = 1 ∧
      get_successors g ((walkSimple g f s).1.getD i "")
        = [(walkSimple g f s).1.getD (i + 1) ""] := by
  intro f
  induction f with
  | zero =>
    intro s i hi
    simp [walkSimple] at hi
  | succ f' ih =>
    intro s i hi
    by_cases h1 : outDegOf g s ≠ 1 ∨ inDegOf g s ≠ 1
    · rw [walkSimple_stop g f' s h1] at hi
      simp at hi
    · cases h2 : get_successors g s with
      | nil =>
        rw [walkSimple_nosucc g f' s h1 h2] at hi
        simp at hi
      | cons nxt rest0 =>
        have hstep := walkSimple_step g f' s nxt rest0 h1 h2
        rw [hstep] at hi ⊢
        push_neg at h1
        match i with
        | 0 =>
          refine ⟨h1.1, h1.2, ?_⟩
          have hlen : ((get_successors g s).length : Int) = 1 := by
            rw [← hout s]
            exact h1.1
          rw [h2] at hlen
          have hlen2 : (nxt :: rest0).length = 1 := by exact_mod_cast hlen
          have hrest : rest0 = [] := by
            simp [List.length_cons] at hlen2
            exact hlen2
          subst hrest
          simp only [List.getD_cons_zero, List.getD_cons_succ]
          rw [h2]
          have hh := (walkSimple_head g f' nxt).1
          rw [List.getD_eq_getElem?_getD] at hh
          simp [hh]
        | j + 1 =>
          have hi' : j + 1 < (walkSimple g f' nxt).1.length := by simpa using hi
          have hrec := ih nxt j hi'
          simpa using hrec

theorem walk_interiors_disjoint (g : DeBruijnGraph)
    (hout : ∀ n, outDegOf g n = ((get_successors g n).length : Int))
    (hin : ∀ n, inDegOf g n = ((get_predecessors g n).length : Int))
    (hnd : (dictKeys g.out_edges).Nodup)
    (u a b : String) (hedga : edgeMem g u a) (hedgb : edgeMem g u b)
    (hab : a ≠ b) (hu : outDegOf g u = 2) (f1 f2 : Nat) :
    ∀ i1 i2, i1 + 1 < (walkSimple g f1 a).1.length →
      i2 < (walkSimple g f2 b).1.length →
      (walkSimple g f1 a).1.getD i1 "" ≠ (walkSimple g f2 b).1.getD i2 "" := by
  intro i1
  induction i1 using Nat.strong_induction_on with
  | _ i1 ihs =>
    intro i2 hi1 hi2 heq
    have hx := walkSimple_chain g hout f1 a i1 hi1
    have hq0 := hin ((walkSimple g f1 a).1.getD i1 "")
    rw [hx.2.1] at hq0
    have hlen1 : (get_predecessors g ((walkSimple g f1 a).1.getD i1 "")).length = 1 := by
      exact_mod_cast hq0.symm
    obtain ⟨q, hq⟩ := List.length_eq_one.mp hlen1
    cases i1 with
    | zero =>
      have hxa : (walkSimple g f1 a).1.getD 0 "" = a := (walkSimple_head g f1 a).1
      rw [hxa] at heq hq
      have hu_mem : u ∈ get_predecessors g a :=
        (mem_get_predecessors g u a hnd).mpr hedga
      have huq : u = q := by
        rw [hq] at hu_mem
        simpa using hu_mem
      cases i2 with
      | zero =>
        have hxb : (walkSimple g f2 b).1.getD 0 "" = b := (walkSimple_head g f2 b).1
        rw [hxb] at heq
        exact hab heq
      | succ j2 =>
        have hy2 := walkSimple_chain g hout f2 b j2 (by omega)
        have hedge2 : edgeMem g ((walkSimple g f2 b).1.getD j2 "")
            ((walkSimple g f2 b).1.getD (j2 + 1) "") := by
          rw [← mem_get_successors, hy2.2.2]
          simp
        rw [← heq] at hedge2
        have hy2_mem : (walkSimple g f2 b).1.getD j2 "" ∈ get_predecessors g a :=
          (mem_get_predecessors g _ a hnd).mpr hedge2
        have hy2q : (walkSimple g f2 b).1.getD j2 "" = q := by
          rw [hq] at hy2_mem
          simpa using hy2_mem
        have hod : outDegOf g ((walkSimple g f2 b).1.getD j2 "") = 1 := hy2.1
        rw [hy2q, ← huq] at hod
        exact absurd (hu.symm.trans hod) (by norm_num)
    | succ j1 =>
      have hy1 := walkSimple_chain g hout f1 a j1 (by omega)
      have hedge1 : edgeMem g ((walkSimple g f1 a).1.getD j1 "")
          ((walkSimple g f1 a).1.getD (j1 + 1) "") := by
        rw [← mem_get_successors, hy1.2.2]
        simp
      have hy1_mem : (walkSimple g f1 a).1.getD j1 ""
          ∈ get_predecessors g ((walkSimple g f1 a).1.getD (j1 + 1) "") :=
        (mem_get_predecessors g _ _ hnd).mpr hedge1
      have hy1q : (walkSimple g f1 a).1.getD j1 "" = q := by
        rw [hq] at hy1_mem
        simpa using hy1_mem
      have hod1 : outDegOf g ((walkSimple g f1 a).1.getD j1 "") = 1 := hy1.1
      cases i2 with
      | zero =>
        have hxb : (walkSimple g f2 b).1.getD 0 "" = b := (walkSimple_head g f2 b).1
        rw [hxb] at heq
        have hub : u ∈ get_predecessors g ((walkSimple g f1 a).1.getD (j1 + 1) "") := by
          rw [heq]
          exact (mem_get_predecessors g u b hnd).mpr hedgb
        have huq : u = q := by
          rw [hq] at hub
          simpa using hub
        have hfin : outDegOf g u = 1 := by
          rw [huq, ← hy1q]
          exact hod1
        exact absurd (hu.symm.trans hfin) (by norm_num)
      | succ j2 =>
        have hy2 := walkSimple_chain g hout f2 b j2 (by omega)
        have hedge2 : edgeMem g ((walkSimple g f2 b).1.getD j2 "")
            ((walkSimple g f2 b).1.getD (j2 + 1) "") := by
          rw [← mem_get_successors, hy2.2.2]
          simp
        rw [← heq] at hedge2
        have hy2_mem : (walkSimple g f2 b).1.getD j2 ""
            ∈ get_predecessors g ((walkSimple g f1 a).1.getD (j1 + 1) "") :=
          (mem_get_predecessors g _ _ hnd).mpr hedge2
        have hy2q : (walkSimple g f2 b).1.getD j2 "" = q := by
          rw [hq] at hy2_mem
          simpa using hy2_mem
        have hyy : (walkSimple g f1 a).1.getD j1 ""
            = (walkSimple g f2 b).1.getD j2 "" := by
          rw [hy1q, hy2q]
        exact ihs j1 (by omega) j2 (by omega) (by omega) hyy

theorem remove_node_self_not_mem (h : DeBruijnGraph) (x : String) :
    x ∉ (remove_node h x).nodes := by
  rw [remove_node_nodes]
  intro hc
  have := (List.mem_filter.mp hc).2
  simp at this

theorem remove_node_nodes_sub (h : DeBruijnGraph) (x y : String)
    (hy : y ∈ (remove_node h x).nodes) : y ∈ h.nodes := by
  rw [remove_node_nodes] at hy
  exact (List.mem_filter.mp hy).1

theorem remove_node_nodes_keep (h : DeBruijnGraph) (x y : String) (hxy : y ≠ x)
    (hy : y ∈ h.nodes) : y ∈ (remove_node h x).nodes := by
  rw [remove_node_nodes]
  exact List.mem_filter.mpr ⟨hy, by simpa using hxy⟩

theorem popNodeRemove_cases (h : DeBruijnGraph) (x : String) :
    popNodeRemove h x = remove_node h x ∨ popNodeRemove h x = h := by
  unfold popNodeRemove
  by_cases h1 : node_exists h x
  · left; rw [if_pos h1]
  · right; rw [if_neg h1]

theorem popNodeRemove_self_absent (h : DeBruijnGraph) (x : String) :
    x ∉ (popNodeRemove h x).nodes := by
  unfold popNodeRemove
  by_cases h1 : node_exists h x
  · rw [if_pos h1]
    exact remove_node_self_not_mem h x
  · rw [if_neg h1]
    exact h1

theorem foldRemove_absent (f : DeBruijnGraph → String → DeBruijnGraph)
    (hf : ∀ h x, f h x = remove_node h x ∨ f h x = h)
    (l : List String) (h : DeBruijnGraph) (y : String) (hy : y ∉ h.nodes) :
    y ∉ (l.foldl f h).nodes := by
  induction l generalizing h with
  | nil => exact hy
  | cons x t ih =>
    rw [List.foldl_cons]
    rcases hf h x with hc | hc
    · rw [hc]
      exact ih _ (fun h2 => hy (remove_node_nodes_sub h x y h2))
    · rw [hc]
      exact ih _ hy

theorem foldRemove_mem_removed (f : DeBruijnGraph → String → DeBruijnGraph)
    (hf : ∀ h x, f h x = remove_node h x ∨ f h x = h)
    (hself : ∀ h x, x ∉ (f h x).nodes)
    (l : List String) (h : DeBruijnGraph) (x : String) (hx : x ∈ l) :
    x ∉ (l.foldl f h).nodes := by
  induction l generalizing h with
  | nil => simp at hx
  | cons y t ih =>
    rw [List.foldl_cons]
    rcases List.mem_cons.mp hx with h1 | h1
    · subst h1
      exact foldRemove_absent f hf t (f h x) x (hself h x)
    · exact ih _ h1

theorem foldRemove_mem_pres (f : DeBruijnGraph → String → DeBruijnGraph)
    (hf : ∀ h x, f h x = remove_node h x ∨ f h x = h)
    (l : List String) (h : DeBruijnGraph) (y : String) (hy : y ∉ l)
    (hmem : y ∈ h.nodes) : y ∈ (l.foldl f h).nodes := by
  induction l generalizing h with
  | nil => exact hmem
  | cons x t ih =>
    have hyx : y ≠ x := fun hc => hy (hc ▸ List.mem_cons_self _ _)
    have hyt : y ∉ t := fun hc => hy (List.mem_cons_of_mem _ hc)
    rw [List.foldl_cons]
    rcases hf h x with hc | hc
    · rw [hc]
      exact ih _ hyt (remove_node_nodes_keep h x y hyx hmem)
    · rw [hc]
      exact ih _ hyt hmem

theorem foldRemove_get?_pres (f : DeBruijnGraph → String → DeBruijnGraph)
    (hf : ∀ h x, f h x = remove_node h x ∨ f h x = h)
    (l : List String) (h : DeBruijnGraph) (a b : String)
    (hnd : (dictKeys h.out_edges).Nodup) (ha : a ∉ l) (hb : b ∉ l) :
    dictGet? (dictGetD (l.foldl f h).out_edges a []) b
      = dictGet? (dictGetD h.out_edges a []) b := by
  induction l generalizing h with
  | nil => rfl
  | cons x t ih =>
    have hax : a ≠ x := fun hc => ha (hc ▸ List.mem_cons_self _ _)
    have hbx : b ≠ x := fun hc => hb (hc ▸ List.mem_cons_self _ _)
    have hat : a ∉ t := fun hc => ha (List.mem_cons_of_mem _ hc)
    have hbt : b ∉ t := fun hc => hb (List.mem_cons_of_mem _ hc)
    rw [List.foldl_cons]
    rcases hf h x with hc | hc
    · rw [hc]
      rw [ih _ (remove_node_keys_nodup h x hnd) hat hbt]
      exact remove_node_get?_pres h x a b hnd hax hbx
    · rw [hc]
      exact ih _ hnd hat hbt

theorem popBubbleAt_shape (g : DeBruijnGraph) (u v1 v2 : String) (m : Nat)
    (hex : node_exists g u) (hsucc : get_successors g u = [v1, v2])
    (hmerge : (walkSimple g m v1).1.getLastD v1 = (walkSimple g m v2).1.getLastD v2) :
    popBubbleAt m g u
      = (if (walkSimple g m v1).2 < (walkSimple g m v2).2
          then (walkSimple g m v1).1 else (walkSimple g m v2).1).dropLast.foldl
            popNodeRemove g := by
  unfold popBubbleAt
  rw [if_neg (not_not_intro hex)]
  simp only [hsucc]
  rw [if_neg (not_not_intro hmerge)]

/-- `weaker_path` of the `pop_bubbles_simple` loop body: path1 exactly when
`weight1 < weight2` (so an exact tie selects path2, the second-listed). -/
def weakerPath (g : DeBruijnGraph) (m : Nat) (v1 v2 : String) : List String :=
  if (walkSimple g m v1).2 < (walkSimple g m v2).2
  then (walkSimple g m v1).1 else (walkSimple g m v2).1

/-- The branch `pop_bubbles_simple` keeps. -/
def strongerPath (g : DeBruijnGraph) (m : Nat) (v1 v2 : String) : List String :=
  if (walkSimple g m v1).2 < (walkSimple g m v2).2
  then (walkSimple g m v2).1 else (walkSimple g m v1).1

/-- The first node of the kept branch. -/
def strongerHead (g : DeBruijnGraph) (m : Nat) (v1 v2 : String) : String :=
  if (walkSimple g m v1).2 < (walkSimple g m v2).2 then v2 else v1

theorem mem_walkSimple_self (g : DeBruijnGraph) (m : Nat) (s : String) :
    s ∈ (walkSimple g m s).1 := by
  obtain ⟨h0, hne⟩ := walkSimple_head g m s
  have hpos : 0 < (walkSimple g m s).1.length := List.length_pos.mpr hne
  have hmem : (walkSimple g m s).1.getD 0 "" ∈ (walkSimple g m s).1 := by
    rw [List.getD_eq_getElem _ _ hpos]
    exact List.getElem_mem hpos
  rw [h0] at hmem
  exact hmem

set_option maxHeartbeats 1000000 in
/-- C7: at a branch node with exactly two successors whose simple-path
walks merge at the same end node, `pop_bubbles_simple`'s step removes
every interior node (all but the final merge node) of the lower-weight
branch, while the higher-weight branch survives intact — every one of its
nodes stays present and every one of its edges (including the branch
node's edge to its head) keeps its weight; on an exact weight tie the
second-listed branch is the one removed.  Hypotheses are the data-model
invariants (key uniqueness, synchronously-kept degree counters). -/
theorem c7_pop_bubble_spec (g : DeBruijnGraph) (u v1 v2 : String) (m : Nat)
    (hcons : ConsistentDeg g) (hwf : WFDicts g)
    (hex : node_exists g u)
    (hsucc : get_successors g u = [v1, v2])
    (hmerge : (walkSimple g m v1).1.getLastD v1
      = (walkSimple g m v2).1.getLastD v2) :
    ((walkSimple g m v1).2 = (walkSimple g m v2).2 →
      weakerPath g m v1 v2 = (walkSimple g m v2).1 ∧
      strongerPath g m v1 v2 = (walkSimple g m v1).1) ∧
    (∀ x ∈ (weakerPath g m v1 v2).dropLast,
      ¬ node_exists (popBubbleAt m g u) x) ∧
    (∀ y ∈ strongerPath g m v1 v2,
      node_exists g y → node_exists (popBubbleAt m g u) y) ∧
    (get_edge_weight (popBubbleAt m g u) u (strongerHead g m v1 v2)
      = get_edge_weight g u (strongerHead g m v1 v2)) ∧
    (∀ i, i + 1 < (strongerPath g m v1 v2).length →
      get_edge_weight (popBubbleAt m g u)
          ((strongerPath g m v1 v2).getD i "")
          ((strongerPath g m v1 v2).getD (i + 1) "")
        = get_edge_weight g
          ((strongerPath g m v1 v2).getD i "")
          ((strongerPath g m v1 v2).getD (i + 1) "")) := by
  obtain ⟨hndO, hndI, hndIn, hndOut⟩ := hwf
  have hout : ∀ n, outDegOf g n = ((get_successors g n).length : Int) :=
    fun n => (consistent_all g hcons n).2
  have hin : ∀ n, inDegOf g n = ((get_predecessors g n).length : Int) :=
    fun n => (consistent_all g hcons n).1
  have hv12 : v1 ≠ v2 := by
    cases hoe : dictGet? g.out_edges u with
    | none =>
      exfalso
      unfold get_successors at hsucc
      rw [show dictGetD g.out_edges u [] = [] from by simp [dictGetD, hoe]] at hsucc
      simp [dictKeys] at hsucc
    | some inner =>
      have hentry := dictGet?_some_mem _ _ _ hoe
      have hndinner := hndI _ hentry
      have hkeys : dictKeys inner = [v1, v2] := by
        unfold get_successors at hsucc
        rw [show dictGetD g.out_edges u [] = inner from by simp [dictGetD, hoe]] at hsucc
        exact hsucc
      rw [hkeys] at hndinner
      simp at hndinner
      exact hndinner
  have hedg1 : edgeMem g u v1 := (mem_get_successors g u v1).mp (by rw [hsucc]; simp)
  have hedg2 : edgeMem g u v2 := (mem_get_successors g u v2).mp (by rw [hsucc]; simp)
  have hu2 : outDegOf g u = 2 := by
    rw [hout u, hsucc]
    rfl
  have hd12 := walk_interiors_disjoint g hout hin hndO u v1 v2 hedg1 hedg2 hv12 hu2 m m
  have hd21 := walk_interiors_disjoint g hout hin hndO u v2 v1 hedg2 hedg1
    (Ne.symm hv12) hu2 m m
  have hshape : popBubbleAt m g u
      = (weakerPath g m v1 v2).dropLast.foldl popNodeRemove g :=
    popBubbleAt_shape g u v1 v2 m hex hsucc hmerge
  have hdisj : ∀ y, y ∈ strongerPath g m v1 v2 →
      y ∉ (weakerPath g m v1 v2).dropLast := by
    intro y hyS hyW
    unfold weakerPath at hyW
    unfold strongerPath at hyS
    by_cases hlt : (walkSimple g m v1).2 < (walkSimple g m v2).2
    · rw [if_pos hlt] at hyW hyS
      obtain ⟨iW, hiW, hiWx⟩ := List.mem_iff_getElem.mp hyW
      obtain ⟨iS, hiS, hiSx⟩ := List.mem_iff_getElem.mp hyS
      rw [List.getElem_dropLast] at hiWx
      rw [List.length_dropLast] at hiW
      have hbw : iW + 1 < (walkSimple g m v1).1.length := by omega
      refine hd12 iW iS hbw hiS ?_
      rw [List.getD_eq_getElem _ _ (by omega), List.getD_eq_getElem _ _ hiS]
      rw [hiWx, hiSx]
    · rw [if_neg hlt] at hyW hyS
      obtain ⟨iW, hiW, hiWx⟩ := List.mem_iff_getElem.mp hyW
      obtain ⟨iS, hiS, hiSx⟩ := List.mem_iff_getElem.mp hyS
      rw [List.getElem_dropLast] at hiWx
      rw [List.length_dropLast] at hiW
      have hbw : iW + 1 < (walkSimple g m v2).1.length := by omega
      refine hd21 iW iS hbw hiS ?_
      rw [List.getD_eq_getElem _ _ (by omega), List.getD_eq_getElem _ _ hiS]
      rw [hiWx, hiSx]
  have huw : u ∉ (weakerPath g m v1 v2).dropLast := by
    intro hc
    unfold weakerPath at hc
    by_cases hlt : (walkSimple g m v1).2 < (walkSimple g m v2).2
    · rw [if_pos hlt] at hc
      obtain ⟨iW, hiW, hiWx⟩ := List.mem_iff_getElem.mp hc
      rw [List.getElem_dropLast] at hiWx
      rw [List.length_dropLast] at hiW
      have hch := walkSimple_chain g hout m v1 iW (by omega)
      rw [List.getD_eq_getElem _ _ (by omega)] at hch
      rw [hiWx] at hch
      have := hch.1
      rw [hu2] at this
      exact absurd this (by norm_num)
    · rw [if_neg hlt] at hc
      obtain ⟨iW, hiW, hiWx⟩ := List.mem_iff_getElem.mp hc
      rw [List.getElem_dropLast] at hiWx
      rw [List.length_dropLast] at hiW
      have hch := walkSimple_chain g hout m v2 iW (by omega)
      rw [List.getD_eq_getElem _ _ (by omega)] at hch
      rw [hiWx] at hch
      have := hch.1
      rw [hu2] at this
      exact absurd this (by norm_num)
  have hheadmem : strongerHead g m v1 v2 ∈ strongerPath g m v1 v2 := by
    unfold strongerHead strongerPath
    by_cases hlt : (walkSimple g m v1).2 < (walkSimple g m v2).2
    · rw [if_pos hlt, if_pos hlt]
      exact mem_walkSimple_self g m v2
    · rw [if_neg hlt, if_neg hlt]
      exact mem_walkSimple_self g m v1
  refine ⟨?_, ?_, ?_, ?_, ?_⟩
  · intro ht
    constructor
    · unfold weakerPath
      rw [if_neg (by rw [ht]; exact lt_irrefl _)]
    · unfold strongerPath
      rw [if_neg (by rw [ht]; exact lt_irrefl _)]
  · intro x hx
    rw [hshape]
    unfold node_exists
    exact foldRemove_mem_removed popNodeRemove popNodeRemove_cases
      popNodeRemove_self_absent _ g x hx
  · intro y hyS hyg
    rw [hshape]
    unfold node_exists
    exact foldRemove_mem_pres popNodeRemove popNodeRemove_cases _ g y
      (hdisj y hyS) hyg
  · have hpres := foldRemove_get?_pres popNodeRemove popNodeRemove_cases
      (weakerPath g m v1 v2).dropLast g u (strongerHead g m v1 v2) hndO huw
      (hdisj _ hheadmem)
    unfold get_edge_weight
    rw [hshape]
    unfold dictGetD at hpres ⊢
    rw [hpres]
  · intro i hlen
    have hmem1 : (strongerPath g m v1 v2).getD i "" ∈ strongerPath g m v1 v2 := by
      rw [List.getD_eq_getElem _ _ (by omega)]
      exact List.getElem_mem (by omega)
    have hmem2 : (strongerPath g m v1 v2).getD (i + 1) "" ∈ strongerPath g m v1 v2 := by
      rw [List.getD_eq_getElem _ _ hlen]
      exact List.getElem_mem hlen
    have hpres := foldRemove_get?_pres popNodeRemove popNodeRemove_cases
      (weakerPath g m v1 v2).dropLast g
      ((strongerPath g m v1 v2).getD i "")
      ((strongerPath g m v1 v2).getD (i + 1) "") hndO
      (hdisj _ hmem1) (hdisj _ hmem2)
    unfold get_edge_weight
    rw [hshape]
    unfold dictGetD at hpres ⊢
    rw [hpres]

/-- The spec's bubble scenario: two divergent 2-node paths from `A` to
`B`, edge weights 10 along `X1, X2` and 2 along `Y1, Y2`. -/
def c7Graph : DeBruijnGraph :=
  add_edge (add_edge (add_edge (add_edge (add_edge (add_edge (emptyGraph 3)
    "A" "X1" 10) "X1" "X2" 10) "X2" "B" 10)
    "A" "Y1" 2) "Y1" "Y2" 2) "Y2" "B" 2

/-- Witness for C7: on the concrete bubble the weight-4 branch's interior
node `Y1` is removed by the bubble step at `A`. -/
theorem c7_witness : ¬ node_exists (popBubbleAt 5 c7Graph "A") "Y1" :=
  (c7_pop_bubble_spec c7Graph "A" "X1" "Y1" 5 (by decide) (by decide)
    (by decide) (by decide) (by decide)).2.1 "Y1" (by decide)
